import Mathlib

/-! Operator interface of the CDC 6600 emulator (`operator.c`).

A shallow embedding of the command parser (`opGetString`), the decode table, the body of the
input loop of `opThread`, the tick `opRequest` and the command handlers, followed by the
properties proved about them.

Conventions of the embedding:

* a C string is the list of its bytes before the terminator, a byte is a natural number;
  reading at the index of the terminator (or beyond the list) yields `0`;
* a `char` array that is written through an index (`name[80]`) is a list of bytes and a write
  is `List.set`;
* the `u8` counters of `opGetString` are natural numbers reduced modulo 256 at every increment;
* a `while` loop that the source does not bound is a function with a fuel argument which returns
  `none` when the fuel is used up;
* a call whose behaviour is undefined in C (a call through a null pointer, `strlen(NULL)`,
  `strcpy` from `NULL` or past the destination, `%s` on an array without terminator) makes the
  embedding return `none`;
* `printf` appends one `Event.printf` with the format string and the `%s` arguments to the
  output trace; `fflush` does not change what is printed and is left out.
-/

namespace Operator

/-! ## Strings -/

/-- Bytes of a string literal of the source (all literals of `operator.c` are ASCII). -/
def cstr (s : String) : List Nat := s.toList.map Char.toNat

/-- C library `isspace` in the "C" locale: space, `\t`, `\n`, `\v`, `\f`, `\r`; no other
byte is whitespace. -/
def isspace (c : Nat) : Bool := c == 32 || (decide (9 ≤ c) && decide (c ≤ 13))

/-- The byte `inStr[pos]` of a string given by the bytes before its terminator. -/
def charAt (inStr : List Nat) (pos : Nat) : Nat := inStr.getD pos 0

/-- The string stored at the start of a `char` array: the bytes before the first `0`. -/
def cstrOf (buf : List Nat) : List Nat := buf.takeWhile (fun c => c != 0)

/-! ## `opGetString` -/

/-- The loops "skip leading whitespace" and "skip trailing whitespace" of `opGetString`:
`while (inStr[pos] != 0 && isspace(inStr[pos])) pos += 1;` with `u8 pos`. -/
def skipSpace : Nat → List Nat → Nat → Option Nat
  | 0, _, _ => none
  | fuel + 1, inStr, pos =>
    if charAt inStr pos != 0 && isspace (charAt inStr pos) then
      skipSpace fuel inStr ((pos + 1) % 256)
    else
      some pos

/-- How the copy loop of `opGetString` is left. -/
inductive CopyExit where
  /-- Exit through `return(NULL)`; the array `outStr` as it is at that moment. -/
  | null (outStr : List Nat)
  /-- The loop condition became false, with the values of `pos`, `len` and `outStr`. -/
  | done (pos len : Nat) (outStr : List Nat)
  deriving DecidableEq, Repr

/-- The loop "copy string to output buffer" of `opGetString`:
`while (inStr[pos] != 0 && !isspace(inStr[pos]))`
`{ if (len >= outSize - 1) return(NULL); outStr[len++] = inStr[pos++]; }`
with `u8 pos, len` and `int outSize`. -/
def copyName : Nat → List Nat → Int → Nat → Nat → List Nat → Option CopyExit
  | 0, _, _, _, _, _ => none
  | fuel + 1, inStr, outSize, pos, len, outStr =>
    if charAt inStr pos != 0 && !isspace (charAt inStr pos) then
      if (len : Int) ≥ outSize - 1 then
        some (.null outStr)
      else
        copyName fuel inStr outSize ((pos + 1) % 256) ((len + 1) % 256)
          (outStr.set len (charAt inStr pos))
    else
      some (.done pos len outStr)

/-- Result of `opGetString`: the returned pointer (`none` is `NULL`, `some p` is `inStr + p`)
and the array `outStr` after the call. -/
structure ParseResult where
  ret : Option Nat
  outStr : List Nat
  deriving DecidableEq, Repr

/-- The function `opGetString(inStr, outStr, outSize)`; `fuel` bounds the iterations of each of
its three loops. -/
def opGetString (fuel : Nat) (inStr outStr : List Nat) (outSize : Int) : Option ParseResult :=
  match skipSpace fuel inStr 0 with
  | none => none
  | some pos =>
    if charAt inStr pos == 0 then
      some ⟨some pos, outStr.set 0 0⟩
    else
      match copyName fuel inStr outSize pos 0 outStr with
      | none => none
      | some (.null out) => some ⟨none, out⟩
      | some (.done pos len out) =>
        match skipSpace fuel inStr pos with
        | none => none
        | some pos => some ⟨some pos, out.set len 0⟩

/-- Specification side: the first whitespace-delimited token of a string, that is the maximal
run of non-whitespace bytes after its leading whitespace. -/
def firstToken (s : List Nat) : List Nat :=
  (s.dropWhile isspace).takeWhile (fun c => !isspace c)

/-- Specification side: what follows the first token and the whitespace run after it. -/
def afterToken (s : List Nat) : List Nat :=
  ((s.dropWhile isspace).dropWhile (fun c => !isspace c)).dropWhile isspace

/-- The bytes `cs` stored one after the other into the array `out` from index `len` on: the
writes `outStr[len++] = ...` of the copy loop. -/
def putBytes : List Nat → Nat → List Nat → List Nat
  | out, _, [] => out
  | out, len, c :: cs => putBytes (out.set len c) (len + 1) cs

/-- Specification side: the index in `s` at which `afterToken s` starts. -/
def afterTokenPos (s : List Nat) : Nat :=
  (s.takeWhile isspace).length + (firstToken s).length
    + (((s.dropWhile isspace).dropWhile (fun c => !isspace c)).takeWhile isspace).length

/-! ## Decode table, state and output trace -/

/-- The command handlers of `operator.c`; a value of this type is a pointer to one of them. -/
inductive Handler where
  | opCmdLoadCards
  | opCmdLoadTape
  | opCmdRemoveCards
  | opCmdRemovePaper
  | opCmdPause
  | opCmdHelp
  | opCmdShutdown
  deriving DecidableEq, Repr

/-- The struct `OpCmd`: a command name and its handler. -/
structure OpCmd where
  name : String
  handler : Handler
  deriving DecidableEq, Repr

/-- The table `decode`, in the order of the source; the terminating entry `NULL, NULL` is the
end of the list. -/
def decode : List OpCmd :=
  [ ⟨"lc", .opCmdLoadCards⟩,
    ⟨"lt", .opCmdLoadTape⟩,
    ⟨"rc", .opCmdRemoveCards⟩,
    ⟨"rp", .opCmdRemovePaper⟩,
    ⟨"p", .opCmdPause⟩,
    ⟨"load_cards", .opCmdLoadCards⟩,
    ⟨"load_tape", .opCmdLoadTape⟩,
    ⟨"remove_cards", .opCmdRemoveCards⟩,
    ⟨"remove_paper", .opCmdRemovePaper⟩,
    ⟨"?", .opCmdHelp⟩,
    ⟨"help", .opCmdHelp⟩,
    ⟨"shutdown", .opCmdShutdown⟩,
    ⟨"pause", .opCmdPause⟩ ]

/-- The search `for (cp = decode; cp->name != NULL; cp++) if (strcmp(cp->name, name) == 0)`:
the first entry whose name equals the given string, `none` when the loop reaches the
terminating entry. -/
def lookup (name : List Nat) : Option OpCmd :=
  decode.find? (fun cp => cstr cp.name == name)

/-- Modelled from the spec: the device actions called by the forwarding handlers
(`cr405LoadCards` and the others are defined in the device files, not in `operator.c`). The
spec only says that each is "invoked synchronously" with "the raw parameter string" and that
"their return is ignored", so a call is recorded in the trace and has no other effect here. -/
inductive Device where
  | cr405LoadCards
  | cr3447LoadCards
  | mt669LoadTape
  | mt679LoadTape
  | lp1612RemovePaper
  | lp3000RemovePaper
  | cp3446RemoveCards
  deriving DecidableEq, Repr

/-- What the code does that is visible from outside, in the order in which it happens. -/
inductive Event where
  /-- One call of `printf` with its format string and its `%s` arguments. -/
  | printf (format : String) (args : List (List Nat))
  /-- One call of a device action with its parameter string. -/
  | device (action : Device) (params : List Nat)
  /-- One call through a handler pointer, with the arguments `help` and `cmdParams`
  (`none` is the `NULL` pointer). -/
  | call (handler : Handler) (help : Bool) (cmdParams : Option (List Nat))
  deriving DecidableEq, Repr

/-- The variables of `operator.c` (with `emulationActive`, which it shares with the main
loop), the array `name` of `opThread`, which keeps its content from one pass of the loop to the
next, and the trace. `inPause` records that the emulation thread is inside the wait loop
`while (opPaused)` of `opCmdPause`. -/
structure OpState where
  emulationActive : Bool
  opActive : Bool
  opPaused : Bool
  opCmdFunction : Option Handler
  opCmdParams : List Nat
  name : List Nat
  out : List Event
  inPause : Bool
  deriving DecidableEq, Repr

/-- Append an event to the trace. -/
def OpState.emit (st : OpState) (e : Event) : OpState :=
  { st with out := st.out ++ [e] }

/-- The call `printf(format, args...)`. -/
def OpState.printf (st : OpState) (format : String) (args : List (List Nat)) : OpState :=
  st.emit (.printf format args)

/-! ## Command handlers -/

def opHelpPause (st : OpState) : OpState :=
  st.printf "'pause' suspends emulation to reduce CPU load.\n" []

/-- The handler `opCmdPause` up to its wait loop: with no parameters it sets `opPaused` and
enters `while (opPaused)`, which only the operator thread ends; see `opCmdPauseWait`. -/
def opCmdPause (help : Bool) (cmdParams : Option (List Nat)) (st : OpState) : Option OpState :=
  if help then
    some (opHelpPause st)
  else
    match cmdParams with
    | none => none
    | some params =>
      if params.length != 0 then
        some (opHelpPause (st.printf "no parameters expected\n" []))
      else
        some { st.printf "Emulation paused - hit Enter to resume\n" [] with
          opPaused := true, inPause := true }

def opHelpShutdown (st : OpState) : OpState :=
  st.printf "'shutdown' terminates emulation.\n" []

/-- The handler `opCmdShutdown`; the macro `DtCyberVersion` (of `const.h`) is a parameter. -/
def opCmdShutdown (DtCyberVersion : List Nat) (help : Bool) (cmdParams : Option (List Nat))
    (st : OpState) : Option OpState :=
  if help then
    some (opHelpShutdown st)
  else
    match cmdParams with
    | none => none
    | some params =>
      if params.length != 0 then
        some (opHelpShutdown (st.printf "no parameters expected\n" []))
      else
        some ({ st with opActive := false, emulationActive := false }.printf
          "\nThanks for using %s\nGoodbye for now.\n\n" [DtCyberVersion])

def opHelpHelp (st : OpState) : OpState :=
  (st.printf "'help'       list all available commands.\n" []).printf
    "'help <cmd>' provide help for <cmd>.\n" []

/-- The handler `opCmdHelp`; `call` is the call `cp->handler(TRUE, NULL)` through the handler
pointer of a table entry. -/
def opCmdHelp (call : Handler → Bool → Option (List Nat) → OpState → Option OpState)
    (help : Bool) (cmdParams : Option (List Nat)) (st : OpState) : Option OpState :=
  if help then
    some (opHelpHelp st)
  else
    match cmdParams with
    | none => none
    | some params =>
      if params.length == 0 then
        some ((decode.foldl (fun s cp => s.printf "%s\n" [cstr cp.name])
            (st.printf "\nList of available commands:\n\n" [])).printf
          "\nTry 'help <command> to get a brief description of a command.\n" [])
      else
        match lookup params with
        | some cp => call cp.handler true none (st.printf "\n" [])
        | none => some (st.printf "Command not implemented: %s\n" [params])

def opHelpLoadCards (st : OpState) : OpState :=
  st.printf "'load_cards <channel>,<equipment>,<filename>' load specified card stack file.\n" []

def opCmdLoadCards (help : Bool) (cmdParams : Option (List Nat)) (st : OpState) :
    Option OpState :=
  if help then
    some (opHelpLoadCards st)
  else
    match cmdParams with
    | none => none
    | some params =>
      if params.length == 0 then
        some (opHelpLoadCards (st.printf "parameters expected\n" []))
      else
        some ((st.emit (.device .cr405LoadCards params)).emit (.device .cr3447LoadCards params))

def opHelpLoadTape (st : OpState) : OpState :=
  st.printf
    "'load_tape <channel>,<equipment>,<unit>,<r|w>,<filename>' load specified tape.\n" []

def opCmdLoadTape (help : Bool) (cmdParams : Option (List Nat)) (st : OpState) :
    Option OpState :=
  if help then
    some (opHelpLoadTape st)
  else
    match cmdParams with
    | none => none
    | some params =>
      if params.length == 0 then
        some (opHelpLoadTape (st.printf "parameters expected\n" []))
      else
        some ((st.emit (.device .mt669LoadTape params)).emit (.device .mt679LoadTape params))

def opHelpRemovePaper (st : OpState) : OpState :=
  st.printf "'remove_paper <channel>,<equipment>' remover paper from printer.\n" []

def opCmdRemovePaper (help : Bool) (cmdParams : Option (List Nat)) (st : OpState) :
    Option OpState :=
  if help then
    some (opHelpRemovePaper st)
  else
    match cmdParams with
    | none => none
    | some params =>
      if params.length == 0 then
        some (opHelpRemovePaper (st.printf "parameters expected\n" []))
      else
        some ((st.emit (.device .lp1612RemovePaper params)).emit
          (.device .lp3000RemovePaper params))

def opHelpRemoveCards (st : OpState) : OpState :=
  st.printf "'remove_cards <channel>,<equipment>' remover cards from card puncher.\n" []

def opCmdRemoveCards (help : Bool) (cmdParams : Option (List Nat)) (st : OpState) :
    Option OpState :=
  if help then
    some (opHelpRemoveCards st)
  else
    match cmdParams with
    | none => none
    | some params =>
      if params.length == 0 then
        some (opHelpRemoveCards (st.printf "parameters expected\n" []))
      else
        some (st.emit (.device .cp3446RemoveCards params))

/-- A call `handler(help, cmdParams)` through a handler pointer. The call is recorded in the
trace. `depth` bounds the nesting of such calls: `opCmdHelp` calls a handler in help mode, and
no handler in help mode calls another, so two levels are all the source can reach. -/
def callHandler (DtCyberVersion : List Nat) :
    Nat → Handler → Bool → Option (List Nat) → OpState → Option OpState
  | 0, _, _, _, _ => none
  | depth + 1, handler, help, cmdParams, st =>
    let st := st.emit (.call handler help cmdParams)
    match handler with
    | .opCmdLoadCards => opCmdLoadCards help cmdParams st
    | .opCmdLoadTape => opCmdLoadTape help cmdParams st
    | .opCmdRemoveCards => opCmdRemoveCards help cmdParams st
    | .opCmdRemovePaper => opCmdRemovePaper help cmdParams st
    | .opCmdPause => opCmdPause help cmdParams st
    | .opCmdHelp => opCmdHelp (callHandler DtCyberVersion depth) help cmdParams st
    | .opCmdShutdown => opCmdShutdown DtCyberVersion help cmdParams st

/-! ## `opRequest` -/

/-- The statements of `opRequest` after the handler has returned:
`opActive = FALSE; if (emulationActive) printf("\nOperator> ");`. -/
def opRequestReturn (st : OpState) : OpState :=
  let st := { st with opActive := false }
  if st.emulationActive then st.printf "\nOperator> " [] else st

/-- The function `opRequest`, called by the emulation thread. When the handler is `opCmdPause`
and enters its wait loop, the result is the state in which the emulation thread waits
(`inPause`); the rest of `opRequest` then runs from `opCmdPauseWait`. -/
def opRequest (DtCyberVersion : List Nat) (st : OpState) : Option OpState :=
  if st.opActive then
    match st.opCmdFunction with
    | none => none
    | some handler =>
      match callHandler DtCyberVersion 2 handler false (some st.opCmdParams) st with
      | none => none
      | some st1 => if st1.inPause then some st1 else some (opRequestReturn st1)
  else
    some st

/-- One test of the condition of the wait loop `while (opPaused) usleep(500000);` of
`opCmdPause` by the emulation thread: it goes on waiting while the flag is set, otherwise
`opCmdPause` returns and `opRequest` finishes. -/
def opCmdPauseWait (st : OpState) : OpState :=
  if st.opPaused then st else opRequestReturn { st with inPause := false }

/-! ## The input loop of `opThread` -/

/-- The statements `pos = strchr(cmd, '\n'); if (pos != NULL) *pos = 0;` of `opThread`: the
string in `cmd` ends where its first newline was. -/
def stripNewline (cmd : List Nat) : List Nat := cmd.takeWhile (fun c => c != 10)

/-- One pass of the body of `while (emulationActive)` in `opThread`, from the call of `fgets`
to the end of the body. `line` is what `fgets(cmd, sizeof(cmd), stdin)` delivers: `none` when
it returns `NULL`, otherwise the string left in `cmd`. The array `cmd` holds at most 255 bytes
and a terminator, so 256 iterations are enough for every loop of `opGetString` that ends. -/
def opThreadBody (st : OpState) (line : Option (List Nat)) : Option OpState :=
  match line with
  | none => some st
  | some cmd =>
    if cmd.length == 0 then
      some st
    else if st.opPaused then
      some { st with opPaused := false }
    else if st.opActive then
      some (st.printf "\nPrevious request still busy" [])
    else
      let cmd := stripNewline cmd
      match opGetString 256 cmd st.name 80 with
      | none => none
      | some r =>
        let st := { st with name := r.outStr }
        if st.name.getD 0 0 == 0 then
          some (st.printf "\nOperator> " [])
        else
          -- no name of the table fills the array, so `strcmp` stops inside it
          match lookup (cstrOf st.name) with
          | some cp =>
            match r.ret with
            | none => none
            | some p =>
              if (cmd.drop p).length < 256 then
                some { st with
                  opCmdParams := cmd.drop p, opCmdFunction := some cp.handler, opActive := true }
              else
                none
          | none =>
            if st.name.contains 0 then
              some ((((st.printf "Command not implemented: %s\n\n" [cstrOf st.name]).printf
                "Try 'help' to get a list of commands or 'help <command>'\n" []).printf
                "to get a brief description of a command.\n" []).printf "\nOperator> " [])
            else
              none


/-! ## The two threads -/

/-- An event is the call of a handler in execute mode (`help` is `FALSE`). -/
def Event.isExecCall : Event → Bool
  | .call _ false _ => true
  | _ => false

/-- Where the operator thread is: at the test of `while (emulationActive)`, inside `fgets`
waiting for a line, or past the loop. -/
inductive InputPc where
  | loopTest
  | fgets
  | exited
  deriving DecidableEq, Repr

/-- The state of the program: the variables and the position of the operator thread (the
position of the emulation thread is the field `inPause`). -/
structure System where
  st : OpState
  input : InputPc
  deriving DecidableEq, Repr

/-- Modelled from the spec: the main loop of the emulation thread, which is in `main.c` and not
in `operator.c`. The spec says that `opRequest` is "invoked synchronously from the emulation
thread's own scheduling point, once per main-loop iteration" and that "both loops observe
EmulationActive and exit on their next iteration boundary": the main loop calls `opRequest`
in an iteration only while `emulationActive` is set. -/
def mainLoopRuns (st : OpState) : Bool := st.emulationActive

/-- One step of one of the two threads. The operator thread tests the loop condition, then
waits in `fgets`, then runs the rest of the body on the line it got. The emulation thread
calls `opRequest` from its main loop, or tests the flag once more when it waits in
`opCmdPause`. -/
inductive Step (DtCyberVersion : List Nat) : System → System → Prop where
  | enterLoop (s : System) : s.input = .loopTest → s.st.emulationActive = true →
      Step DtCyberVersion s { s with input := .fgets }
  | leaveLoop (s : System) : s.input = .loopTest → s.st.emulationActive = false →
      Step DtCyberVersion s { s with input := .exited }
  | line (s : System) (line : Option (List Nat)) (st1 : OpState) : s.input = .fgets →
      opThreadBody s.st line = some st1 →
      Step DtCyberVersion s ⟨st1, .loopTest⟩
  | tick (s : System) (st1 : OpState) : s.st.inPause = false → mainLoopRuns s.st = true →
      opRequest DtCyberVersion s.st = some st1 →
      Step DtCyberVersion s { s with st := st1 }
  | wait (s : System) : s.st.inPause = true →
      Step DtCyberVersion s { s with st := opCmdPauseWait s.st }

/-- A run: any number of steps of the two threads, in any order. -/
def Run (DtCyberVersion : List Nat) : System → System → Prop :=
  Relation.ReflTransGen (Step DtCyberVersion)


/-! ## States used in the examples -/

/-- The operator is idle: nothing is staged, the flags are clear, `name` holds zeros. -/
def idleState : OpState :=
  { emulationActive := true, opActive := false, opPaused := false, opCmdFunction := none,
    opCmdParams := [], name := List.replicate 80 0, out := [], inPause := false }

/-- The command `lt 1,2,3,r,tape1.dat` is staged. -/
def busyState : OpState :=
  { idleState with
    opActive := true, opCmdFunction := some .opCmdLoadTape,
    opCmdParams := cstr "1,2,3,r,tape1.dat" }

/-- The emulation thread waits in `opCmdPause`. -/
def pausedState : OpState :=
  { idleState with
    opActive := true, opPaused := true, opCmdFunction := some .opCmdPause, inPause := true }

/-- The command `shutdown` is staged. -/
def shutdownStaged : OpState :=
  { idleState with opActive := true, opCmdFunction := some .opCmdShutdown }

/-- The state after `opRequest` has executed the staged `shutdown` (version string empty). -/
def afterShutdown : OpState :=
  { idleState with
    emulationActive := false, opCmdFunction := some .opCmdShutdown,
    out := [ .call .opCmdShutdown false (some []),
      .printf "\nThanks for using %s\nGoodbye for now.\n\n" [[]] ] }

/-- The state after the operator thread, which was waiting in `fgets` during the shutdown, has
read the line `lt 1`. -/
def stagedAfterShutdown : OpState :=
  { afterShutdown with
    opActive := true, opCmdFunction := some .opCmdLoadTape, opCmdParams := cstr "1",
    name := cstr "lt" ++ List.replicate 78 0 }

/-- An input line whose first token has 80 characters and begins with the command name `lt`. -/
def longLine : List Nat := cstr "lt" ++ List.replicate 78 65 ++ cstr " 1,2\n"

/-- Specification side: the names of the decode table in table order. -/
def commandNames : List (List Nat) :=
  [ cstr "lc", cstr "lt", cstr "rc", cstr "rp", cstr "p", cstr "load_cards", cstr "load_tape",
    cstr "remove_cards", cstr "remove_paper", cstr "?", cstr "help", cstr "shutdown",
    cstr "pause" ]

/-- Specification side: the description of a command, that is what its handler prints when it
is called in help mode. -/
def helpText : Handler → List Event
  | .opCmdLoadCards =>
    [.printf "'load_cards <channel>,<equipment>,<filename>' load specified card stack file.\n" []]
  | .opCmdLoadTape =>
    [.printf
      "'load_tape <channel>,<equipment>,<unit>,<r|w>,<filename>' load specified tape.\n" []]
  | .opCmdRemoveCards =>
    [.printf "'remove_cards <channel>,<equipment>' remover cards from card puncher.\n" []]
  | .opCmdRemovePaper =>
    [.printf "'remove_paper <channel>,<equipment>' remover paper from printer.\n" []]
  | .opCmdPause => [.printf "'pause' suspends emulation to reduce CPU load.\n" []]
  | .opCmdHelp =>
    [ .printf "'help'       list all available commands.\n" [],
      .printf "'help <cmd>' provide help for <cmd>.\n" [] ]
  | .opCmdShutdown => [.printf "'shutdown' terminates emulation.\n" []]

/-- The state after the operator thread, starting idle, has read the line `lt 1`. -/
def stagedState : OpState :=
  { idleState with
    opActive := true, opCmdFunction := some .opCmdLoadTape, opCmdParams := cstr "1",
    name := cstr "lt" ++ List.replicate 78 0 }


/-! ## `opGetString` with a record of its counters

The same three loops as above, which in addition list every value `pos + 1` and `len + 1`
that an increment computes, before it is reduced to eight bits. A counter wraps when such a
value reaches 256. -/

/-- The loop of `skipSpace`, with the values `pos + 1` of its increments. -/
def skipSpaceT : Nat → List Nat → Nat → Option (Nat × List Nat)
  | 0, _, _ => none
  | fuel + 1, inStr, pos =>
    if charAt inStr pos != 0 && isspace (charAt inStr pos) then
      match skipSpaceT fuel inStr ((pos + 1) % 256) with
      | none => none
      | some (p, tr) => some (p, (pos + 1) :: tr)
    else
      some (pos, [])

/-- The loop of `copyName`, with the pairs `(pos + 1, len + 1)` of its increments. -/
def copyNameT : Nat → List Nat → Int → Nat → Nat → List Nat →
    Option (CopyExit × List (Nat × Nat))
  | 0, _, _, _, _, _ => none
  | fuel + 1, inStr, outSize, pos, len, outStr =>
    if charAt inStr pos != 0 && !isspace (charAt inStr pos) then
      if (len : Int) ≥ outSize - 1 then
        some (.null outStr, [])
      else
        match copyNameT fuel inStr outSize ((pos + 1) % 256) ((len + 1) % 256)
            (outStr.set len (charAt inStr pos)) with
        | none => none
        | some (e, tr) => some (e, (pos + 1, len + 1) :: tr)
    else
      some (.done pos len outStr, [])

/-- The function `opGetString`, with the values of all increments of `pos` and of `len`. -/
def opGetStringT (fuel : Nat) (inStr outStr : List Nat) (outSize : Int) :
    Option (ParseResult × List Nat × List Nat) :=
  match skipSpaceT fuel inStr 0 with
  | none => none
  | some (pos, tr1) =>
    if charAt inStr pos == 0 then
      some (⟨some pos, outStr.set 0 0⟩, tr1, [])
    else
      match copyNameT fuel inStr outSize pos 0 outStr with
      | none => none
      | some (.null out, tr2) => some (⟨none, out⟩, tr1 ++ tr2.map Prod.fst, tr2.map Prod.snd)
      | some (.done pos len out, tr2) =>
        match skipSpaceT fuel inStr pos with
        | none => none
        | some (pos, tr3) =>
          some (⟨some pos, out.set len 0⟩, tr1 ++ tr2.map Prod.fst ++ tr3, tr2.map Prod.snd)


theorem charAt_of_drop_cons {s : List Nat} {pos c : Nat} {t : List Nat}
    (h : s.drop pos = c :: t) : charAt s pos = c := by
  have h0 : (s.drop pos)[0]? = some c := by rw [h]; simp
  rw [List.getElem?_drop] at h0
  simp only [Nat.add_zero] at h0
  simp [charAt, List.getD_eq_getElem?_getD, h0]

theorem charAt_of_drop_nil {s : List Nat} {pos : Nat}
    (h : s.drop pos = []) : charAt s pos = 0 := by
  have hl : s.length ≤ pos := List.drop_eq_nil_iff.mp h
  simp [charAt, List.getD_eq_getElem?_getD, List.getElem?_eq_none hl]

theorem drop_succ_of_drop_cons {s : List Nat} {pos c : Nat} {t : List Nat}
    (h : s.drop pos = c :: t) : s.drop (pos + 1) = t := by
  have : s.drop (pos + 1) = (s.drop pos).drop 1 := by
    rw [List.drop_drop]
  rw [this, h]; simp

theorem mem_of_drop_cons {s : List Nat} {pos c : Nat} {t : List Nat}
    (h : s.drop pos = c :: t) : c ∈ s :=
  List.mem_of_mem_drop (by rw [h]; exact List.mem_cons_self _ _)

theorem drop_takeWhile_length (p : Nat → Bool) (t : List Nat) :
    t.drop (t.takeWhile p).length = t.dropWhile p := by
  induction t with
  | nil => rfl
  | cons c t ih =>
    by_cases hc : p c
    · simp [List.takeWhile_cons, List.dropWhile_cons, hc, ih]
    · simp [List.takeWhile_cons, List.dropWhile_cons, hc]

theorem drop_add_takeWhile (p : Nat → Bool) {s t : List Nat} {pos : Nat}
    (h : s.drop pos = t) : s.drop (pos + (t.takeWhile p).length) = t.dropWhile p := by
  rw [← drop_takeWhile_length p t, ← h, List.drop_drop]

theorem skipSpace_eq (s : List Nat) (hnz : ∀ c ∈ s, c ≠ 0) :
    ∀ (t : List Nat) (pos fuel : Nat), s.drop pos = t → pos + t.length ≤ 255 →
      t.length < fuel →
      skipSpace fuel s pos = some (pos + (t.takeWhile isspace).length) := by
  intro t
  induction t with
  | nil =>
    intro pos fuel h _ hf
    obtain ⟨f, rfl⟩ : ∃ f, fuel = f + 1 := ⟨fuel - 1, by simp at hf; omega⟩
    simp [skipSpace, charAt_of_drop_nil h]
  | cons c t ih =>
    intro pos fuel h hb hf
    obtain ⟨f, rfl⟩ : ∃ f, fuel = f + 1 := ⟨fuel - 1, by omega⟩
    have hc := charAt_of_drop_cons h
    have hcz : c ≠ 0 := hnz c (mem_of_drop_cons h)
    simp only [List.length_cons] at hb hf
    by_cases hs : isspace c = true
    · have hm : (pos + 1) % 256 = pos + 1 := Nat.mod_eq_of_lt (by omega)
      simp only [skipSpace, hc, hm]
      rw [ih (pos + 1) f (drop_succ_of_drop_cons h) (by omega) (by omega)]
      simp [hs, hcz, List.takeWhile_cons]
      omega
    · simp [skipSpace, hc, hs, List.takeWhile_cons]


theorem putBytes_length : ∀ (cs out : List Nat) (len : Nat),
    (putBytes out len cs).length = out.length := by
  intro cs
  induction cs with
  | nil => intro out len; rfl
  | cons c cs ih => intro out len; simp [putBytes, ih]

theorem putBytes_eq : ∀ (cs out : List Nat) (len : Nat), len + cs.length ≤ out.length →
    putBytes out len cs = out.take len ++ cs ++ out.drop (len + cs.length) := by
  intro cs
  induction cs with
  | nil => intro out len _; simp [putBytes]
  | cons c cs ih =>
    intro out len h
    simp only [List.length_cons] at h
    have hlt : len < out.length := by omega
    rw [putBytes, ih (out.set len c) (len + 1) (by simp; omega)]
    have h1 : (out.set len c).take (len + 1) = out.take len ++ [c] := by
      rw [List.set_eq_take_append_cons_drop, if_pos hlt]
      have hl : (List.take len out).length = len := by simp; omega
      rw [List.take_append_eq_append_take, hl]
      simp [List.take_of_length_le, hl]
    have h2 : (out.set len c).drop (len + 1 + cs.length) = out.drop (len + (cs.length + 1)) := by
      rw [List.drop_set_of_lt _ _ (by omega)]
      congr 1; omega
    rw [h1, h2]; simp


theorem copyName_fits (s : List Nat) (hnz : ∀ c ∈ s, c ≠ 0) (outSize : Int) :
    ∀ (t : List Nat) (pos len fuel : Nat) (out : List Nat), s.drop pos = t →
      pos + t.length ≤ 255 → len + t.length ≤ 255 → t.length < fuel →
      ((len + (t.takeWhile (fun c => !isspace c)).length : Nat) : Int) ≤ outSize - 1 →
      copyName fuel s outSize pos len out =
        some (.done (pos + (t.takeWhile (fun c => !isspace c)).length)
          (len + (t.takeWhile (fun c => !isspace c)).length)
          (putBytes out len (t.takeWhile (fun c => !isspace c)))) := by
  intro t
  induction t with
  | nil =>
    intro pos len fuel out h _ _ hf _
    obtain ⟨f, rfl⟩ : ∃ f, fuel = f + 1 := ⟨fuel - 1, by simp at hf; omega⟩
    simp [copyName, charAt_of_drop_nil h, putBytes]
  | cons c t ih =>
    intro pos len fuel out h hp hl hf hfit
    obtain ⟨f, rfl⟩ : ∃ f, fuel = f + 1 := ⟨fuel - 1, by omega⟩
    have hc := charAt_of_drop_cons h
    have hcz : c ≠ 0 := hnz c (mem_of_drop_cons h)
    simp only [List.length_cons] at hp hl hf
    by_cases hs : isspace c = true
    · simp [copyName, hc, hs, List.takeWhile_cons, putBytes]
    · have hs' : isspace c = false := by simpa using hs
      have htw : (c :: t).takeWhile (fun c => !isspace c)
          = c :: t.takeWhile (fun c => !isspace c) := by
        simp [List.takeWhile_cons, hs']
      rw [htw] at hfit ⊢
      simp only [List.length_cons] at hfit ⊢
      have hm1 : (pos + 1) % 256 = pos + 1 := Nat.mod_eq_of_lt (by omega)
      have hm2 : (len + 1) % 256 = len + 1 := Nat.mod_eq_of_lt (by omega)
      have hge : ¬ ((len : Int) ≥ outSize - 1) := by push_cast at hfit; omega
      simp only [copyName, hc, hm1, hm2, hs', if_neg hge]
      rw [ih (pos + 1) (len + 1) f (out.set len c) (drop_succ_of_drop_cons h) (by omega)
        (by omega) (by omega) (by push_cast at hfit ⊢; omega)]
      simp [hcz, putBytes]
      omega

theorem copyName_overflow (s : List Nat) (hnz : ∀ c ∈ s, c ≠ 0) (outSize : Int) :
    ∀ (t : List Nat) (pos len fuel : Nat) (out : List Nat), s.drop pos = t →
      pos + t.length ≤ 255 → len + t.length ≤ 255 → t.length < fuel →
      (len : Int) ≤ outSize - 1 →
      outSize - 1 < ((len + (t.takeWhile (fun c => !isspace c)).length : Nat) : Int) →
      copyName fuel s outSize pos len out =
        some (.null (putBytes out len
          ((t.takeWhile (fun c => !isspace c)).take (outSize - 1 - len).toNat))) := by
  intro t
  induction t with
  | nil =>
    intro pos len fuel out h _ _ hf h1 h2
    simp at h2; omega
  | cons c t ih =>
    intro pos len fuel out h hp hl hf h1 h2
    obtain ⟨f, rfl⟩ : ∃ f, fuel = f + 1 := ⟨fuel - 1, by omega⟩
    have hc := charAt_of_drop_cons h
    have hcz : c ≠ 0 := hnz c (mem_of_drop_cons h)
    simp only [List.length_cons] at hp hl hf
    by_cases hs : isspace c = true
    · simp [List.takeWhile_cons, hs] at h2; omega
    · have hs' : isspace c = false := by simpa using hs
      have htw : (c :: t).takeWhile (fun c => !isspace c)
          = c :: t.takeWhile (fun c => !isspace c) := by
        simp [List.takeWhile_cons, hs']
      rw [htw] at h2 ⊢
      simp only [List.length_cons] at h2
      by_cases hge : (len : Int) ≥ outSize - 1
      · have h0 : (outSize - 1 - (len : Int)).toNat = 0 := by omega
        simp [copyName, hc, hs', hcz, hge, h0, putBytes]
      · have hm1 : (pos + 1) % 256 = pos + 1 := Nat.mod_eq_of_lt (by omega)
        have hm2 : (len + 1) % 256 = len + 1 := Nat.mod_eq_of_lt (by omega)
        have hn : (outSize - 1 - (len : Int)).toNat
            = (outSize - 1 - ((len + 1 : Nat) : Int)).toNat + 1 := by omega
        simp only [copyName, hc, hm1, hm2, hs', if_neg hge]
        rw [ih (pos + 1) (len + 1) f (out.set len c) (drop_succ_of_drop_cons h) (by omega)
          (by omega) (by omega) (by push_cast; omega) (by push_cast at h2 ⊢; omega)]
        simp [hcz, hn, putBytes]


theorem length_takeWhile_add_dropWhile (p : Nat → Bool) (l : List Nat) :
    (l.takeWhile p).length + (l.dropWhile p).length = l.length := by
  rw [← List.length_append, List.takeWhile_append_dropWhile]

theorem drop_afterTokenPos (s : List Nat) : s.drop (afterTokenPos s) = afterToken s := by
  have h1 : s.drop (0 + (s.takeWhile isspace).length) = s.dropWhile isspace :=
    drop_add_takeWhile isspace (List.drop_zero s)
  have h2 := drop_add_takeWhile (fun c => !isspace c) h1
  have h3 := drop_add_takeWhile isspace h2
  simpa [afterTokenPos, afterToken, firstToken] using h3

theorem afterTokenPos_le (s : List Nat) : afterTokenPos s ≤ s.length := by
  have h1 := length_takeWhile_add_dropWhile isspace s
  have h2 := length_takeWhile_add_dropWhile (fun c => !isspace c) (s.dropWhile isspace)
  have h3 := length_takeWhile_add_dropWhile isspace
    ((s.dropWhile isspace).dropWhile (fun c => !isspace c))
  simp only [afterTokenPos, firstToken]
  omega

theorem opGetString_fits (s out : List Nat) (outSize : Int) (fuel : Nat)
    (hnz : ∀ c ∈ s, c ≠ 0) (hlen : s.length ≤ 255) (hfuel : s.length < fuel)
    (hfit : ((firstToken s).length : Int) ≤ outSize - 1) :
    opGetString fuel s out outSize
      = some ⟨some (afterTokenPos s),
          (putBytes out 0 (firstToken s)).set (firstToken s).length 0⟩ := by
  have l1 := length_takeWhile_add_dropWhile isspace s
  have l2 := length_takeWhile_add_dropWhile (fun c => !isspace c) (s.dropWhile isspace)
  have l3 := length_takeWhile_add_dropWhile isspace
    ((s.dropWhile isspace).dropWhile (fun c => !isspace c))
  have d1 : s.drop (0 + (s.takeWhile isspace).length) = s.dropWhile isspace :=
    drop_add_takeWhile isspace (List.drop_zero s)
  have d2 := drop_add_takeWhile (fun c => !isspace c) d1
  have k1 := skipSpace_eq s hnz s 0 fuel (List.drop_zero s) (by omega) hfuel
  have k2 := copyName_fits s hnz outSize (s.dropWhile isspace) (0 + (s.takeWhile isspace).length)
    0 fuel out d1 (by omega) (by omega) (by omega) (by simpa [firstToken] using hfit)
  have k3 := skipSpace_eq s hnz _ _ fuel d2 (by omega) (by omega)
  simp only [Nat.zero_add] at d1 k1 k2 k3
  unfold opGetString
  rw [k1]
  cases hd : s.dropWhile isspace with
  | nil =>
    rw [hd] at d1
    simp [charAt_of_drop_nil d1, firstToken, afterTokenPos, hd, putBytes]
  | cons c t =>
    have d1' := d1
    rw [hd] at d1'
    have hcz : c ≠ 0 := hnz c (mem_of_drop_cons d1')
    simp only [charAt_of_drop_cons d1', beq_iff_eq, hcz, if_false]
    rw [k2]
    simp only [k3]
    simp [firstToken, afterTokenPos]

theorem opGetString_overflow (s out : List Nat) (outSize : Int) (fuel : Nat)
    (hnz : ∀ c ∈ s, c ≠ 0) (hlen : s.length ≤ 255) (hfuel : s.length < fuel)
    (hsize : 1 ≤ outSize) (hlong : outSize - 1 < ((firstToken s).length : Int)) :
    opGetString fuel s out outSize
      = some ⟨none, putBytes out 0 ((firstToken s).take (outSize - 1).toNat)⟩ := by
  have l1 := length_takeWhile_add_dropWhile isspace s
  have d1 : s.drop (0 + (s.takeWhile isspace).length) = s.dropWhile isspace :=
    drop_add_takeWhile isspace (List.drop_zero s)
  have k1 := skipSpace_eq s hnz s 0 fuel (List.drop_zero s) (by omega) hfuel
  have k2 := copyName_overflow s hnz outSize (s.dropWhile isspace)
    (0 + (s.takeWhile isspace).length) 0 fuel out d1 (by omega) (by omega) (by omega)
    (by push_cast; omega) (by simpa [firstToken] using hlong)
  simp only [Nat.zero_add] at d1 k1 k2
  unfold opGetString
  rw [k1]
  cases hd : s.dropWhile isspace with
  | nil =>
    simp [firstToken, hd] at hlong; omega
  | cons c t =>
    have d1' := d1
    rw [hd] at d1'
    have hcz : c ≠ 0 := hnz c (mem_of_drop_cons d1')
    simp only [charAt_of_drop_cons d1', beq_iff_eq, hcz, if_false]
    rw [k2]
    simp [firstToken]


theorem putBytes_terminated (tok out : List Nat) (h : tok.length < out.length) :
    (putBytes out 0 tok).set tok.length 0 = tok ++ 0 :: out.drop (tok.length + 1) := by
  rw [putBytes_eq tok out 0 (by omega)]
  simp only [List.take_zero, List.nil_append, Nat.zero_add]
  rw [List.set_append_right _ _ (Nat.le_refl _), Nat.sub_self]
  cases hd : out.drop tok.length with
  | nil => simp at hd; omega
  | cons x rest =>
    have : out.drop (tok.length + 1) = rest := drop_succ_of_drop_cons hd
    simp [this]

theorem cstrOf_terminated (tok rest : List Nat) (hnz : ∀ c ∈ tok, c ≠ 0) :
    cstrOf (tok ++ 0 :: rest) = tok := by
  unfold cstrOf
  rw [List.takeWhile_append_of_pos (by simpa using hnz)]
  simp

theorem firstToken_subset (s : List Nat) : ∀ c ∈ firstToken s, c ∈ s := by
  intro c hc
  exact List.dropWhile_sublist _ |>.subset (List.takeWhile_subset _ hc)

theorem firstToken_not_space (s : List Nat) : ∀ c ∈ firstToken s, isspace c = false := by
  intro c hc
  simpa using List.mem_takeWhile_imp hc

theorem stripNewline_length (cmd : List Nat) : (stripNewline cmd).length ≤ cmd.length :=
  (List.takeWhile_sublist _).length_le

theorem stripNewline_nonzero (cmd : List Nat) (hnz : ∀ c ∈ cmd, c ≠ 0) :
    ∀ c ∈ stripNewline cmd, c ≠ 0 :=
  fun c hc => hnz c (List.takeWhile_subset _ hc)

/-- The pass of the loop body on a line that is parsed: the operator is neither paused nor
busy and the first token of the line fits the array `name`. -/
theorem opThreadBody_parsed (st : OpState) (cmd : List Nat)
    (hp : st.opPaused = false) (ha : st.opActive = false) (hname : st.name.length = 80)
    (hne : cmd ≠ []) (hlen : cmd.length ≤ 255) (hnz : ∀ c ∈ cmd, c ≠ 0)
    (hfit : (firstToken (stripNewline cmd)).length ≤ 79) :
    opThreadBody st (some cmd) =
      if firstToken (stripNewline cmd) = [] then
        some ({ st with name := st.name.set 0 0 }.printf "\nOperator> " [])
      else
        match lookup (firstToken (stripNewline cmd)) with
        | some cp =>
          some { st with
            name := firstToken (stripNewline cmd) ++ 0 ::
              st.name.drop ((firstToken (stripNewline cmd)).length + 1)
            opCmdParams := afterToken (stripNewline cmd)
            opCmdFunction := some cp.handler
            opActive := true }
        | none =>
          some (((({ st with
            name := firstToken (stripNewline cmd) ++ 0 ::
              st.name.drop ((firstToken (stripNewline cmd)).length + 1) }.printf
            "Command not implemented: %s\n\n" [firstToken (stripNewline cmd)]).printf
            "Try 'help' to get a list of commands or 'help <command>'\n" []).printf
            "to get a brief description of a command.\n" []).printf "\nOperator> " []) := by
  generalize htxt : stripNewline cmd = text at hfit ⊢
  have htl : text.length ≤ 255 := by
    rw [← htxt]; exact Nat.le_trans (stripNewline_length cmd) hlen
  have htz : ∀ c ∈ text, c ≠ 0 := by
    rw [← htxt]; exact stripNewline_nonzero cmd hnz
  have hg := opGetString_fits text st.name 80 256 htz htl (by omega) (by omega)
  have hterm := putBytes_terminated (firstToken text) st.name (by omega)
  have htokz : ∀ c ∈ firstToken text, c ≠ 0 := fun c hc => htz c (firstToken_subset text c hc)
  have hcl : cmd.length ≠ 0 := by
    intro h; exact hne (List.length_eq_zero.mp h)
  have hdl : (afterToken text).length < 256 := by
    rw [← drop_afterTokenPos, List.length_drop]; omega
  simp only [opThreadBody, hp, ha, htxt, hg, hterm, beq_iff_eq, hcl]
  by_cases htok : firstToken text = []
  · have h0 : st.name.set 0 0 = 0 :: st.name.drop 1 := by
      have := hterm; rw [htok] at this; simpa [putBytes] using this
    simp [htok, h0]
  · obtain ⟨c, r, hcr⟩ : ∃ c r, firstToken text = c :: r := by
      cases h : firstToken text with
      | nil => exact absurd h htok
      | cons c r => exact ⟨c, r, rfl⟩
    have hc0 : c ≠ 0 := htokz c (by rw [hcr]; exact List.mem_cons_self _ _)
    have hget : (firstToken text ++ 0 :: st.name.drop ((firstToken text).length + 1)).getD 0 0
        = c := by rw [hcr]; rfl
    have hcs := cstrOf_terminated (firstToken text)
      (st.name.drop ((firstToken text).length + 1)) htokz
    simp only [hget, hc0, hcs, htok, if_false, drop_afterTokenPos, hdl, if_true]
    cases lookup (firstToken text) with
    | some cp => simp
    | none => simp


theorem lookup_mem {n : List Nat} {cp : OpCmd} (h : lookup n = some cp) :
    cp ∈ decode ∧ cstr cp.name = n := by
  unfold lookup at h
  exact ⟨List.mem_of_find?_eq_some h, by simpa using List.find?_some h⟩

theorem lookup_of_mem : ∀ cp ∈ decode, lookup (cstr cp.name) = some cp := by
  decide

theorem decode_name_nonempty : ∀ cp ∈ decode, cstr cp.name ≠ [] := by
  decide

theorem decode_name_short : ∀ cp ∈ decode, (cstr cp.name).length ≤ 12 := by
  decide

/-- A call in help mode prints and returns; it does not look at its parameter. -/
theorem callHandler_help (ver : List Nat) (depth : Nat) (h : Handler) (q : Option (List Nat))
    (st : OpState) :
    ∃ evs, callHandler ver (depth + 1) h true q st
        = some { st with out := st.out ++ .call h true q :: evs } ∧
      ∀ e ∈ evs, e.isExecCall = false := by
  cases h <;>
    simp [callHandler, opCmdLoadCards, opCmdLoadTape, opCmdRemoveCards, opCmdRemovePaper,
      opCmdPause, opCmdHelp, opCmdShutdown, opHelpLoadCards, opHelpLoadTape, opHelpRemoveCards,
      opHelpRemovePaper, opHelpPause, opHelpHelp, opHelpShutdown, OpState.printf, OpState.emit,
      Event.isExecCall]


theorem foldl_printf_names (l : List OpCmd) (st : OpState) :
    l.foldl (fun s cp => s.printf "%s\n" [cstr cp.name]) st
      = { st with out := st.out ++ l.map (fun cp => Event.printf "%s\n" [cstr cp.name]) } := by
  induction l generalizing st with
  | nil => simp
  | cons a l ih =>
    rw [List.foldl_cons, ih]
    simp [OpState.printf, OpState.emit]

/-- A call in execute mode with a parameter string is defined; it appends the record of the
call and then events that are not calls in execute mode, and it leaves the pending command and
the array `name` alone. It ends inside the wait loop exactly for `opCmdPause` without
parameters. -/
theorem callHandler_exec (ver : List Nat) (h : Handler) (p : List Nat) (st : OpState) :
    ∃ st1 evs, callHandler ver 2 h false (some p) st = some st1 ∧
      st1.out = st.out ++ .call h false (some p) :: evs ∧
      (∀ e ∈ evs, e.isExecCall = false) ∧
      st1.opCmdFunction = st.opCmdFunction ∧ st1.opCmdParams = st.opCmdParams ∧
      st1.name = st.name ∧
      (st.inPause = false → (st1.inPause = true ↔ h = .opCmdPause ∧ p = [])) := by
  cases h
  case opCmdHelp =>
    by_cases hp : p = []
    · subst hp
      have hc : callHandler ver 2 .opCmdHelp false (some []) st
          = some { st with out := st.out ++ .call .opCmdHelp false (some []) ::
              (.printf "\nList of available commands:\n\n" [] ::
                (decode.map (fun cp => Event.printf "%s\n" [cstr cp.name]) ++
                [.printf "\nTry 'help <command> to get a brief description of a command.\n"
                  []])) } := by
        simp only [callHandler, opCmdHelp]
        rw [foldl_printf_names]
        simp [OpState.printf, OpState.emit]
      refine ⟨_, _, hc, rfl, ?_, rfl, rfl, rfl, ?_⟩
      · intro e he
        simp only [List.mem_append, List.mem_cons, List.mem_map, List.mem_singleton,
          List.mem_nil_iff, or_false] at he
        rcases he with rfl | ⟨cp, _, rfl⟩ | rfl <;> rfl
      · intro hi; simp [hi]
    · have hl : p.length ≠ 0 := fun h0 => hp (List.length_eq_zero.mp h0)
      cases hlk : lookup p with
      | none =>
        have hc : callHandler ver 2 .opCmdHelp false (some p) st
            = some { st with out := st.out ++ .call .opCmdHelp false (some p) ::
                [.printf "Command not implemented: %s\n" [p]] } := by
          simp [callHandler, opCmdHelp, hl, hlk, OpState.printf, OpState.emit]
        refine ⟨_, _, hc, rfl, ?_, rfl, rfl, rfl, ?_⟩
        · intro e he
          simp only [List.mem_singleton] at he
          subst he; rfl
        · intro hi; simp [hi]
      | some cp =>
        obtain ⟨evs, hev, hne⟩ := callHandler_help ver 0 cp.handler none
          ((st.emit (.call .opCmdHelp false (some p))).printf "\n" [])
        have hc : callHandler ver 2 .opCmdHelp false (some p) st
            = callHandler ver 1 cp.handler true none
                ((st.emit (.call .opCmdHelp false (some p))).printf "\n" []) := by
          show opCmdHelp (callHandler ver 1) false (some p) (st.emit _) = _
          simp [opCmdHelp, hl, hlk]
        rw [hev] at hc
        refine ⟨_, .printf "\n" [] :: .call cp.handler true none :: evs, hc, ?_, ?_, rfl, rfl,
          rfl, ?_⟩
        · simp [OpState.printf, OpState.emit]
        · intro e he
          simp only [List.mem_cons] at he
          rcases he with rfl | rfl | he
          · rfl
          · rfl
          · exact hne e he
        · intro hi; simp [hi, OpState.printf, OpState.emit]
  all_goals
    by_cases hp : p = []
    · subst hp
      simp [callHandler, opCmdLoadCards, opCmdLoadTape, opCmdRemoveCards, opCmdRemovePaper,
        opCmdPause, opCmdShutdown, opHelpLoadCards, opHelpLoadTape, opHelpRemoveCards,
        opHelpRemovePaper, opHelpPause, opHelpShutdown, OpState.printf, OpState.emit,
        Event.isExecCall]
    · have hl : p.length ≠ 0 := fun h0 => hp (List.length_eq_zero.mp h0)
      simp [callHandler, opCmdLoadCards, opCmdLoadTape, opCmdRemoveCards, opCmdRemovePaper,
        opCmdPause, opCmdShutdown, opHelpLoadCards, opHelpLoadTape, opHelpRemoveCards,
        opHelpRemovePaper, opHelpPause, opHelpShutdown, OpState.printf, OpState.emit,
        Event.isExecCall, hp, hl]


/-! ## The claims -/

/-- C3: while a command is staged or executing (`opActive` set) and the operator is not paused,
a pass of the loop body on any input line (any non-empty string delivered by `fgets`) prints
the notice "Previous request still busy" and changes nothing else: `opCmdParams`,
`opCmdFunction` and `opActive` have the values they had before the pass. -/
theorem opThreadBody_busy (st : OpState) (cmd : List Nat) (hne : cmd ≠ [])
    (ha : st.opActive = true) (hp : st.opPaused = false) :
    ∃ st1, opThreadBody st (some cmd) = some st1 ∧
      st1 = { st with out := st.out ++ [.printf "\nPrevious request still busy" []] } ∧
      st1.opCmdParams = st.opCmdParams ∧ st1.opCmdFunction = st.opCmdFunction ∧
      st1.opActive = st.opActive := by
  have hl : cmd.length ≠ 0 := fun h => hne (List.length_eq_zero.mp h)
  refine ⟨_, ?_, rfl, rfl, rfl, rfl⟩
  simp [opThreadBody, hl, ha, hp, OpState.printf, OpState.emit]

theorem opThreadBody_busy_witness :
    ∃ st1, opThreadBody busyState (some (cstr "lc 1,2,deck\n")) = some st1 ∧
      st1 = { busyState with out := [.printf "\nPrevious request still busy" []] } ∧
      st1.opCmdParams = cstr "1,2,3,r,tape1.dat" ∧
      st1.opCmdFunction = some .opCmdLoadTape ∧ st1.opActive = true :=
  opThreadBody_busy busyState (cstr "lc 1,2,deck\n") (by decide) rfl rfl

/-- C6: when the pause flag is set, a pass of the loop body on any input line (any non-empty
string delivered by `fgets`), also one that names a command, clears `opPaused` and does
nothing else: `opActive`, `opCmdFunction` and `opCmdParams` are unchanged and nothing is
printed. -/
theorem opThreadBody_paused (st : OpState) (cmd : List Nat) (hne : cmd ≠ [])
    (hp : st.opPaused = true) :
    ∃ st1, opThreadBody st (some cmd) = some st1 ∧
      st1 = { st with opPaused := false } ∧
      st1.opActive = st.opActive ∧ st1.opCmdFunction = st.opCmdFunction ∧
      st1.opCmdParams = st.opCmdParams ∧ st1.out = st.out := by
  have hl : cmd.length ≠ 0 := fun h => hne (List.length_eq_zero.mp h)
  refine ⟨_, ?_, rfl, rfl, rfl, rfl, rfl⟩
  simp [opThreadBody, hl, hp]

theorem opThreadBody_paused_witness :
    ∃ st1, opThreadBody pausedState (some (cstr "shutdown\n")) = some st1 ∧
      st1 = { pausedState with opPaused := false } ∧
      st1.opActive = true ∧ st1.opCmdFunction = some .opCmdPause ∧
      st1.opCmdParams = [] ∧ st1.out = [] :=
  opThreadBody_paused pausedState (cstr "shutdown\n") (by decide) rfl


theorem dropWhile_head_not (p : Nat → Bool) (l : List Nat) {c : Nat} {r : List Nat}
    (h : l.dropWhile p = c :: r) : p c = false := by
  have := List.head?_dropWhile_not p l
  rw [h] at this
  simpa using this

theorem firstToken_ne_nil (s : List Nat) (h : ∃ c ∈ s, isspace c = false) :
    firstToken s ≠ [] := by
  obtain ⟨c, hc, hs⟩ := h
  unfold firstToken
  cases hd : s.dropWhile isspace with
  | nil =>
    have := (List.dropWhile_eq_nil_iff.mp hd) c hc
    simp [hs] at this
  | cons d r =>
    have hdn := dropWhile_head_not isspace s hd
    simp [List.takeWhile_cons, hdn]

theorem token_split (s : List Nat) :
    s = s.takeWhile isspace ++ firstToken s
        ++ ((s.dropWhile isspace).dropWhile (fun c => !isspace c)).takeWhile isspace
        ++ afterToken s := by
  simp only [firstToken, afterToken, List.append_assoc, List.takeWhile_append_dropWhile]

/-- C2: for a string `s` of at most 255 characters whose first token has at most
`outSize - 1` characters, `opGetString(s, out, outSize)` leaves in `out` the first token of
`s` (the maximal run of non-whitespace characters after the leading whitespace) and returns
the suffix of `s` after that token and the whitespace run following it. So
`s = ws1 ++ name ++ ws2 ++ remainder` with `ws1`, `ws2` whitespace only, `name` free of
whitespace (and not empty when `s` has a character that is not whitespace), `remainder` empty
or starting with a character that is not whitespace, and `remainder` is literally the rest of
`s`. -/
theorem opGetString_token_and_remainder (s out : List Nat) (outSize : Int) (fuel : Nat)
    (hnz : ∀ c ∈ s, c ≠ 0) (hlen : s.length ≤ 255) (hfuel : 256 ≤ fuel)
    (hout : (out.length : Int) = outSize)
    (hfit : ((firstToken s).length : Int) ≤ outSize - 1) :
    ∃ p outStr, opGetString fuel s out outSize = some ⟨some p, outStr⟩ ∧
      cstrOf outStr = firstToken s ∧
      p ≤ s.length ∧ s.drop p = afterToken s ∧
      (∃ ws1 ws2, s = ws1 ++ firstToken s ++ ws2 ++ afterToken s ∧
        (∀ c ∈ ws1, isspace c = true) ∧ (∀ c ∈ ws2, isspace c = true) ∧
        (ws2 = [] → afterToken s = [])) ∧
      (∀ c ∈ firstToken s, isspace c = false) ∧
      ((∃ c ∈ s, isspace c = false) → firstToken s ≠ []) ∧
      (∀ c rest, afterToken s = c :: rest → isspace c = false) := by
  have hg := opGetString_fits s out outSize fuel hnz hlen (by omega) hfit
  have hterm := putBytes_terminated (firstToken s) out (by omega)
  have htokz : ∀ c ∈ firstToken s, c ≠ 0 := fun c hc => hnz c (firstToken_subset s c hc)
  refine ⟨afterTokenPos s, _, hg, ?_, afterTokenPos_le s, drop_afterTokenPos s, ?_,
    firstToken_not_space s, firstToken_ne_nil s, ?_⟩
  · rw [hterm]; exact cstrOf_terminated _ _ htokz
  · refine ⟨_, _, token_split s, ?_, ?_, ?_⟩
    · intro c hc; exact List.mem_takeWhile_imp hc
    · intro c hc; exact List.mem_takeWhile_imp hc
    · intro h
      unfold afterToken
      cases hd : (s.dropWhile isspace).dropWhile (fun c => !isspace c) with
      | nil => rfl
      | cons d r =>
        have hdn := dropWhile_head_not _ _ hd
        have hds : isspace d = true := by simpa using hdn
        rw [hd] at h
        simp [List.takeWhile_cons, hds] at h
  · intro c rest h
    exact dropWhile_head_not isspace _ h

theorem opGetString_token_and_remainder_witness :
    ∃ p outStr, opGetString 256 (cstr "  lt   1,2,3 r  ") (List.replicate 80 7) 80
        = some ⟨some p, outStr⟩ ∧
      cstrOf outStr = cstr "lt" ∧ (cstr "  lt   1,2,3 r  ").drop p = cstr "1,2,3 r  " := by
  obtain ⟨p, outStr, h1, h2, _, h4, _⟩ :=
    opGetString_token_and_remainder (cstr "  lt   1,2,3 r  ") (List.replicate 80 7) 80 256
      (by decide) (by decide) (by decide) (by decide) (by decide)
  exact ⟨p, outStr, h1, h2.trans (by decide), h4.trans (by decide)⟩


/-- C10: `opGetString` returns `NULL` exactly when the command-name token is longer than
`outSize - 1` characters (for strings of at most 255 characters and an output array of
`outSize ≥ 1` bytes). When it does not return `NULL` the array holds the whole token, never a
shortened one. With the 80 bytes of `name`, a token of 79 characters is accepted whole and a
token of 80 or more characters makes the call return `NULL`. -/
theorem opGetString_null_iff_too_long (s out : List Nat) (outSize : Int) (fuel : Nat)
    (hnz : ∀ c ∈ s, c ≠ 0) (hlen : s.length ≤ 255) (hfuel : 256 ≤ fuel)
    (hout : (out.length : Int) = outSize) (hsize : 1 ≤ outSize) :
    ∃ r, opGetString fuel s out outSize = some r ∧
      (r.ret = none ↔ outSize - 1 < ((firstToken s).length : Int)) ∧
      (r.ret ≠ none → cstrOf r.outStr = firstToken s) ∧
      (outSize = 80 → (firstToken s).length = 79 →
        r.ret ≠ none ∧ cstrOf r.outStr = firstToken s) ∧
      (outSize = 80 → 80 ≤ (firstToken s).length → r.ret = none) := by
  have htokz : ∀ c ∈ firstToken s, c ≠ 0 := fun c hc => hnz c (firstToken_subset s c hc)
  by_cases hfit : ((firstToken s).length : Int) ≤ outSize - 1
  · have hg := opGetString_fits s out outSize fuel hnz hlen (by omega) hfit
    have hterm := putBytes_terminated (firstToken s) out (by omega)
    have hc : cstrOf ((putBytes out 0 (firstToken s)).set (firstToken s).length 0)
        = firstToken s := by
      rw [hterm]; exact cstrOf_terminated _ _ htokz
    refine ⟨_, hg, ?_, fun _ => hc, fun _ _ => ⟨by simp, hc⟩, ?_⟩
    · simp only [reduceCtorEq, false_iff]; omega
    · intro h80 hl; omega
  · have hg := opGetString_overflow s out outSize fuel hnz hlen (by omega) hsize (by omega)
    refine ⟨_, hg, ?_, fun h => absurd rfl h, ?_, fun _ _ => rfl⟩
    · simp only [true_iff]; omega
    · intro h80 hl; omega

theorem opGetString_null_iff_too_long_witness :
    ∃ r, opGetString 256 (List.replicate 80 65 ++ cstr " x") (List.replicate 80 7) 80
        = some r ∧ r.ret = none := by
  obtain ⟨r, h1, h2, _⟩ :=
    opGetString_null_iff_too_long (List.replicate 80 65 ++ cstr " x") (List.replicate 80 7)
      80 256 (by decide) (by decide) (by decide) (by decide) (by decide)
  exact ⟨r, h1, h2.mpr (by decide)⟩

/-- C8: on an input line that consists of whitespace only, `opGetString` returns an empty
command name, and a pass of the loop body, when the operator is neither paused nor busy,
prints the prompt and stages nothing: `opActive` stays false, `opCmdFunction` and
`opCmdParams` are unchanged. -/
theorem opThreadBody_blank_line (st : OpState) (cmd : List Nat) (hne : cmd ≠ [])
    (hlen : cmd.length ≤ 255) (hws : ∀ c ∈ cmd, isspace c = true)
    (hp : st.opPaused = false) (ha : st.opActive = false) :
    ∃ r st1, opGetString 256 (stripNewline cmd) st.name 80 = some r ∧ r.ret ≠ none ∧
      cstrOf r.outStr = [] ∧
      opThreadBody st (some cmd) = some st1 ∧
      st1 = { st with name := r.outStr, out := st.out ++ [.printf "\nOperator> " []] } ∧
      st1.opActive = false ∧ st1.opCmdFunction = st.opCmdFunction ∧
      st1.opCmdParams = st.opCmdParams := by
  have hnz : ∀ c ∈ cmd, c ≠ 0 := by
    intro c hc h0
    have := hws c hc
    rw [h0] at this
    exact absurd this (by decide)
  have htz := stripNewline_nonzero cmd hnz
  have htl : (stripNewline cmd).length ≤ 255 := Nat.le_trans (stripNewline_length cmd) hlen
  have htok : firstToken (stripNewline cmd) = [] := by
    have hall : ∀ c ∈ stripNewline cmd, isspace c = true :=
      fun c hc => hws c (List.takeWhile_subset _ hc)
    simp [firstToken, List.dropWhile_eq_nil_iff.mpr hall]
  have hg := opGetString_fits (stripNewline cmd) st.name 80 256 htz htl (by omega)
    (by rw [htok]; decide)
  rw [htok] at hg
  simp only [putBytes, List.length_nil] at hg
  have hcl : cmd.length ≠ 0 := fun h => hne (List.length_eq_zero.mp h)
  have hhead : (st.name.set 0 0).getD 0 0 = 0 := by
    cases st.name <;> simp
  have hcs : cstrOf (st.name.set 0 0) = [] := by
    cases st.name <;> simp [cstrOf]
  refine ⟨_, _, hg, by simp, hcs, ?_, rfl, ha, rfl, rfl⟩
  simp only [opThreadBody, hp, ha, hg, beq_iff_eq, hcl, hhead]
  simp [OpState.printf, OpState.emit, ha, hp]

theorem opThreadBody_blank_line_witness :
    ∃ r st1, opGetString 256 (stripNewline (cstr "  \n")) idleState.name 80 = some r ∧
      r.ret ≠ none ∧ cstrOf r.outStr = [] ∧
      opThreadBody idleState (some (cstr "  \n")) = some st1 ∧
      st1 = { idleState with name := r.outStr, out := [.printf "\nOperator> " []] } ∧
      st1.opActive = false ∧ st1.opCmdFunction = none ∧ st1.opCmdParams = [] :=
  opThreadBody_blank_line idleState (cstr "  \n") (by decide) (by decide) (by decide) rfl rfl


/-- C9: on an input line whose command name (the string that `opGetString` leaves in the
array `name`, which is the first token of the line whenever that token fits the array) is not
empty and is not a name of the decode table, a pass of the loop body, when the operator is
neither paused nor busy, prints "Command not implemented: " with the name, the two lines of
the hint to use 'help' and the prompt, and stages nothing: `opActive` stays false,
`opCmdFunction` and `opCmdParams` are unchanged. -/
theorem opThreadBody_unknown_command (st : OpState) (cmd : List Nat)
    (hp : st.opPaused = false) (ha : st.opActive = false) (hname : st.name.length = 80)
    (hne : cmd ≠ []) (hlen : cmd.length ≤ 255) (hnz : ∀ c ∈ cmd, c ≠ 0) :
    ∃ r, opGetString 256 (stripNewline cmd) st.name 80 = some r ∧
      ((firstToken (stripNewline cmd)).length ≤ 79 →
        cstrOf r.outStr = firstToken (stripNewline cmd) ∧ r.outStr.contains 0 = true) ∧
      (cstrOf r.outStr ≠ [] → lookup (cstrOf r.outStr) = none → r.outStr.contains 0 = true →
        ∃ st1, opThreadBody st (some cmd) = some st1 ∧
          st1.out = st.out ++
            [ .printf "Command not implemented: %s\n\n" [cstrOf r.outStr],
              .printf "Try 'help' to get a list of commands or 'help <command>'\n" [],
              .printf "to get a brief description of a command.\n" [],
              .printf "\nOperator> " [] ] ∧
          st1.opActive = false ∧ st1.opCmdFunction = st.opCmdFunction ∧
          st1.opCmdParams = st.opCmdParams) := by
  have htz := stripNewline_nonzero cmd hnz
  have htl : (stripNewline cmd).length ≤ 255 := Nat.le_trans (stripNewline_length cmd) hlen
  have htokz : ∀ c ∈ firstToken (stripNewline cmd), c ≠ 0 :=
    fun c hc => htz c (firstToken_subset _ c hc)
  have hcl : cmd.length ≠ 0 := fun h => hne (List.length_eq_zero.mp h)
  have hex : ∃ r, opGetString 256 (stripNewline cmd) st.name 80 = some r ∧
      ((firstToken (stripNewline cmd)).length ≤ 79 →
        cstrOf r.outStr = firstToken (stripNewline cmd) ∧ r.outStr.contains 0 = true) := by
    by_cases hfit : (firstToken (stripNewline cmd)).length ≤ 79
    · have hg := opGetString_fits (stripNewline cmd) st.name 80 256 htz htl (by omega)
        (by omega)
      have hterm := putBytes_terminated (firstToken (stripNewline cmd)) st.name (by omega)
      refine ⟨_, hg, fun _ => ?_⟩
      simp only [hterm]
      exact ⟨cstrOf_terminated _ _ htokz, by simp⟩
    · have hg := opGetString_overflow (stripNewline cmd) st.name 80 256 htz htl (by omega)
        (by decide) (by omega)
      exact ⟨_, hg, fun h => absurd h hfit⟩
  obtain ⟨r, hg, hfitc⟩ := hex
  refine ⟨r, hg, hfitc, ?_⟩
  intro hnn hunk hterm
  have hhead : ¬ (r.outStr.getD 0 0 = 0) := by
    intro h0
    apply hnn
    unfold cstrOf
    cases hr : r.outStr with
    | nil => rfl
    | cons a l =>
      rw [hr] at h0
      simp at h0
      simp [List.takeWhile_cons, h0]
  refine ⟨(((({ st with name := r.outStr } : OpState).printf
      "Command not implemented: %s\n\n" [cstrOf r.outStr]).printf
      "Try 'help' to get a list of commands or 'help <command>'\n" []).printf
      "to get a brief description of a command.\n" []).printf "\nOperator> " [],
    ?_, ?_, ha, rfl, rfl⟩
  · simp only [opThreadBody, hp, ha, hg, beq_iff_eq, hcl, hhead, hunk, hterm]
    simp
  · simp [OpState.printf, OpState.emit]

theorem opThreadBody_unknown_command_witness :
    ∃ st1, opThreadBody idleState (some (cstr "foo\n")) = some st1 ∧
      st1.out =
        [ .printf "Command not implemented: %s\n\n" [cstr "foo"],
          .printf "Try 'help' to get a list of commands or 'help <command>'\n" [],
          .printf "to get a brief description of a command.\n" [],
          .printf "\nOperator> " [] ] ∧
      st1.opActive = false ∧ st1.opCmdFunction = none ∧ st1.opCmdParams = [] := by
  obtain ⟨r, _, hfit, hb⟩ := opThreadBody_unknown_command idleState (cstr "foo\n") rfl rfl
    (by decide) (by decide) (by decide) (by decide)
  obtain ⟨hname, hterm⟩ := hfit (by decide)
  have hfoo : firstToken (stripNewline (cstr "foo\n")) = cstr "foo" := by decide
  rw [hfoo] at hname
  rw [hname] at hb
  exact hb (by decide) (by decide) hterm

/-- C1: when the operator is neither paused nor busy and the first token of an input line of
at most 255 characters is the name of an entry `cp` of the decode table, a pass of the loop
body sets `opCmdFunction` to the handler of `cp`, sets `opCmdParams` to the text of the line
after that token and the whitespace run following it, and sets `opActive`. A call of
`opRequest` in the state so reached calls that handler once, in execute mode (`help` false)
and with exactly that parameter string. -/
theorem opThreadBody_stages_command (DtCyberVersion : List Nat) (st : OpState)
    (cmd : List Nat) (cp : OpCmd)
    (hp : st.opPaused = false) (ha : st.opActive = false) (hname : st.name.length = 80)
    (hlen : cmd.length ≤ 255) (hnz : ∀ c ∈ cmd, c ≠ 0)
    (hcp : cp ∈ decode) (htok : firstToken (stripNewline cmd) = cstr cp.name) :
    ∃ st1, opThreadBody st (some cmd) = some st1 ∧
      st1.opCmdFunction = some cp.handler ∧
      st1.opCmdParams = afterToken (stripNewline cmd) ∧
      st1.opActive = true ∧
      ∃ st2 evs,
        callHandler DtCyberVersion 2 cp.handler false (some (afterToken (stripNewline cmd))) st1
          = some st2 ∧
        st2.out = st1.out ++
          .call cp.handler false (some (afterToken (stripNewline cmd))) :: evs ∧
        (∀ e ∈ evs, e.isExecCall = false) ∧
        opRequest DtCyberVersion st1
          = some (if st2.inPause then st2 else opRequestReturn st2) := by
  have hnn : firstToken (stripNewline cmd) ≠ [] := by
    rw [htok]; exact decode_name_nonempty cp hcp
  have hfit : (firstToken (stripNewline cmd)).length ≤ 79 := by
    rw [htok]; exact Nat.le_trans (decode_name_short cp hcp) (by decide)
  have hne : cmd ≠ [] := by
    rintro rfl
    exact hnn (by simp [stripNewline, firstToken])
  have hb := opThreadBody_parsed st cmd hp ha hname hne hlen hnz hfit
  rw [if_neg hnn, htok, lookup_of_mem cp hcp] at hb
  simp only at hb
  refine ⟨_, hb, rfl, rfl, rfl, ?_⟩
  obtain ⟨st2, evs, h1, h2, h3, _⟩ := callHandler_exec DtCyberVersion cp.handler
    (afterToken (stripNewline cmd))
    { st with
      name := cstr cp.name ++ 0 :: st.name.drop ((cstr cp.name).length + 1)
      opCmdParams := afterToken (stripNewline cmd)
      opCmdFunction := some cp.handler
      opActive := true }
  refine ⟨st2, evs, h1, h2, h3, ?_⟩
  simp only [opRequest, if_true, h1]
  split <;> rfl

theorem opThreadBody_stages_command_witness :
    ∃ st1, opThreadBody idleState (some (cstr "lt 1,2,3,r,tape1.dat\n")) = some st1 ∧
      st1.opCmdFunction = some .opCmdLoadTape ∧
      st1.opCmdParams = cstr "1,2,3,r,tape1.dat" ∧
      st1.opActive = true ∧
      ∃ st2 evs,
        callHandler [] 2 .opCmdLoadTape false (some (cstr "1,2,3,r,tape1.dat")) st1
          = some st2 ∧
        st2.out = st1.out ++ .call .opCmdLoadTape false (some (cstr "1,2,3,r,tape1.dat")) :: evs ∧
        (∀ e ∈ evs, e.isExecCall = false) ∧
        opRequest [] st1 = some (if st2.inPause then st2 else opRequestReturn st2) := by
  have h := opThreadBody_stages_command [] idleState (cstr "lt 1,2,3,r,tape1.dat\n")
    ⟨"lt", .opCmdLoadTape⟩ rfl rfl (by decide) (by decide) (by decide) (by decide) (by decide)
  have hrest : afterToken (stripNewline (cstr "lt 1,2,3,r,tape1.dat\n"))
      = cstr "1,2,3,r,tape1.dat" := by decide
  rw [hrest] at h
  exact h


/-- C7: the lookup over the decode table is an exact, case-sensitive match. A name resolves to
an entry if and only if it is one of the 13 names `lc`, `load_cards`, `lt`, `load_tape`, `rc`,
`remove_cards`, `rp`, `remove_paper`, `p`, `pause`, `shutdown`, `?`, `help`; the entry found
carries exactly that name; the aliases of a command resolve to the same handler; `LT` and
`Help` are not found. -/
theorem lookup_exact_match :
    (∀ n : List Nat, (∃ cp, lookup n = some cp) ↔
      n ∈ [cstr "lc", cstr "load_cards", cstr "lt", cstr "load_tape", cstr "rc",
        cstr "remove_cards", cstr "rp", cstr "remove_paper", cstr "p", cstr "pause",
        cstr "shutdown", cstr "?", cstr "help"]) ∧
    (∀ (n : List Nat) (cp : OpCmd), lookup n = some cp → cp ∈ decode ∧ cstr cp.name = n) ∧
    ((lookup (cstr "lc")).map OpCmd.handler = some .opCmdLoadCards ∧
      (lookup (cstr "load_cards")).map OpCmd.handler = some .opCmdLoadCards) ∧
    ((lookup (cstr "lt")).map OpCmd.handler = some .opCmdLoadTape ∧
      (lookup (cstr "load_tape")).map OpCmd.handler = some .opCmdLoadTape) ∧
    ((lookup (cstr "rc")).map OpCmd.handler = some .opCmdRemoveCards ∧
      (lookup (cstr "remove_cards")).map OpCmd.handler = some .opCmdRemoveCards) ∧
    ((lookup (cstr "rp")).map OpCmd.handler = some .opCmdRemovePaper ∧
      (lookup (cstr "remove_paper")).map OpCmd.handler = some .opCmdRemovePaper) ∧
    ((lookup (cstr "p")).map OpCmd.handler = some .opCmdPause ∧
      (lookup (cstr "pause")).map OpCmd.handler = some .opCmdPause) ∧
    ((lookup (cstr "?")).map OpCmd.handler = some .opCmdHelp ∧
      (lookup (cstr "help")).map OpCmd.handler = some .opCmdHelp) ∧
    (lookup (cstr "shutdown")).map OpCmd.handler = some .opCmdShutdown ∧
    lookup (cstr "LT") = none ∧ lookup (cstr "Help") = none := by
  refine ⟨?_, fun n cp h => lookup_mem h, by decide, by decide, by decide, by decide,
    by decide, by decide, by decide, by decide, by decide⟩
  intro n
  constructor
  · rintro ⟨cp, h⟩
    obtain ⟨hm, hn⟩ := lookup_mem h
    subst hn
    revert cp
    decide
  · intro h
    simp only [List.mem_cons, List.mem_singleton, List.mem_nil_iff, or_false] at h
    rcases h with h | h | h | h | h | h | h | h | h | h | h | h | h <;>
      subst h <;> exact Option.isSome_iff_exists.mp (by decide)


theorem opRequestReturn_spec (st : OpState) :
    (opRequestReturn st).opActive = false ∧
    (opRequestReturn st).emulationActive = st.emulationActive ∧
    (opRequestReturn st).out
      = st.out ++ (if st.emulationActive then [.printf "\nOperator> " []] else []) := by
  unfold opRequestReturn
  cases h : st.emulationActive <;> simp [h, OpState.printf, OpState.emit]

/-- C4: `opRequest` returns with the state unchanged and nothing printed when no command is
staged. When a command is staged it calls `opCmdFunction` once, with `help` false and
`opCmdParams` (the call is recorded once and nothing the handler does is another call in
execute mode); when the handler has returned, `opActive` is cleared and the prompt
"\nOperator> " is printed after the output of the handler if and only if `emulationActive` is
still set at that moment. The handler `opCmdPause` called without parameters returns only
after the operator thread has cleared `opPaused`; the same holds then. -/
theorem opRequest_tick (DtCyberVersion : List Nat) (st : OpState) :
    (st.opActive = false → opRequest DtCyberVersion st = some st) ∧
    (st.opActive = true → st.inPause = false → ∀ h, st.opCmdFunction = some h →
      ∃ st1 evs,
        callHandler DtCyberVersion 2 h false (some st.opCmdParams) st = some st1 ∧
        st1.out = st.out ++ .call h false (some st.opCmdParams) :: evs ∧
        (∀ e ∈ evs, e.isExecCall = false) ∧
        (st1.inPause = false → opRequest DtCyberVersion st = some (opRequestReturn st1)) ∧
        (st1.inPause = true →
          opRequest DtCyberVersion st = some st1 ∧ h = .opCmdPause ∧ st1.opPaused = true)) ∧
    (∀ st2 : OpState, st2.opPaused = true → opCmdPauseWait st2 = st2) ∧
    (∀ st2 : OpState, st2.opPaused = false →
      opCmdPauseWait st2 = opRequestReturn { st2 with inPause := false }) ∧
    (∀ st1 : OpState,
      (opRequestReturn st1).opActive = false ∧
      (opRequestReturn st1).emulationActive = st1.emulationActive ∧
      (opRequestReturn st1).out
        = st1.out ++ (if st1.emulationActive then [.printf "\nOperator> " []] else [])) := by
  refine ⟨?_, ?_, ?_, ?_, opRequestReturn_spec⟩
  · intro ha
    simp [opRequest, ha]
  · intro ha hi h hf
    obtain ⟨st1, evs, h1, h2, h3, _, _, _, h7⟩ :=
      callHandler_exec DtCyberVersion h st.opCmdParams st
    refine ⟨st1, evs, h1, h2, h3, ?_, ?_⟩
    · intro hn
      simp [opRequest, ha, hf, h1, hn]
    · intro hy
      obtain ⟨hh, hpar⟩ := (h7 hi).mp hy
      refine ⟨by simp [opRequest, ha, hf, h1, hy], hh, ?_⟩
      subst hh
      rw [hpar] at h1
      simp [callHandler, opCmdPause] at h1
      rw [← h1]
  · intro st2 hp
    simp [opCmdPauseWait, hp]
  · intro st2 hp
    simp [opCmdPauseWait, hp]

theorem opRequest_tick_witness :
    ∃ st1 evs,
      callHandler [] 2 .opCmdLoadTape false (some busyState.opCmdParams) busyState
        = some st1 ∧
      st1.out = busyState.out ++ .call .opCmdLoadTape false (some busyState.opCmdParams) :: evs ∧
      (∀ e ∈ evs, e.isExecCall = false) ∧
      (st1.inPause = false → opRequest [] busyState = some (opRequestReturn st1)) ∧
      (st1.inPause = true →
        opRequest [] busyState = some st1 ∧ Handler.opCmdLoadTape = .opCmdPause ∧
          st1.opPaused = true) :=
  (opRequest_tick [] busyState).2.1 rfl rfl .opCmdLoadTape rfl


/-- A pass of the loop body never touches `emulationActive` or `inPause`, and what it appends
to the trace are calls of `printf`. -/
theorem opThreadBody_frame (st st1 : OpState) (line : Option (List Nat))
    (h : opThreadBody st line = some st1) :
    st1.emulationActive = st.emulationActive ∧ st1.inPause = st.inPause ∧
      ∃ evs, st1.out = st.out ++ evs ∧ ∀ e ∈ evs, e.isExecCall = false := by
  unfold opThreadBody at h
  split at h
  · cases h; exact ⟨rfl, rfl, [], by simp, by simp⟩
  · split at h
    · cases h; exact ⟨rfl, rfl, [], by simp, by simp⟩
    · split at h
      · cases h; exact ⟨rfl, rfl, [], by simp, by simp⟩
      · split at h
        · cases h
          exact ⟨rfl, rfl, _, rfl, by simp [Event.isExecCall]⟩
        · dsimp only at h
          split at h
          · cases h
          · split at h
            · cases h
              exact ⟨rfl, rfl, _, rfl, by simp [Event.isExecCall]⟩
            · split at h
              · split at h
                · cases h
                · split at h
                  · cases h; exact ⟨rfl, rfl, [], by simp, by simp⟩
                  · cases h
              · split at h
                · cases h
                  refine ⟨rfl, rfl, ?_⟩
                  simp only [OpState.printf, OpState.emit, List.append_assoc]
                  exact ⟨_, rfl, by simp [Event.isExecCall]⟩
                · cases h

theorem filter_isExecCall_append (out evs : List Event)
    (h : ∀ e ∈ evs, e.isExecCall = false) :
    (out ++ evs).filter Event.isExecCall = out.filter Event.isExecCall := by
  have hn : evs.filter Event.isExecCall = [] :=
    List.filter_eq_nil_iff.mpr (fun e he => by simp [h e he])
  rw [List.filter_append, hn, List.append_nil]

/-- Once `emulationActive` is cleared, no step of either thread sets it again or calls a
handler in execute mode. -/
theorem step_after_shutdown (ver : List Nat) (s s1 : System) (h : Step ver s s1)
    (he : s.st.emulationActive = false) :
    s1.st.emulationActive = false ∧
      s1.st.out.filter Event.isExecCall = s.st.out.filter Event.isExecCall := by
  cases h with
  | enterLoop _ hx => exact ⟨he, rfl⟩
  | leaveLoop _ _ => exact ⟨he, rfl⟩
  | line ln st1 _ hb =>
    obtain ⟨h1, _, evs, h3, h4⟩ := opThreadBody_frame _ _ _ hb
    refine ⟨h1.trans he, ?_⟩
    show st1.out.filter _ = _
    rw [h3, filter_isExecCall_append _ _ h4]
  | tick st1 _ hm _ =>
    simp [mainLoopRuns, he] at hm
  | wait _ =>
    show (opCmdPauseWait s.st).emulationActive = false ∧
      (opCmdPauseWait s.st).out.filter _ = _
    unfold opCmdPauseWait
    split
    · exact ⟨he, rfl⟩
    · obtain ⟨_, h2, h3⟩ := opRequestReturn_spec { s.st with inPause := false }
      refine ⟨h2.trans he, ?_⟩
      rw [h3]
      simp [he]

theorem run_after_shutdown (ver : List Nat) (s s1 : System) (h : Run ver s s1)
    (he : s.st.emulationActive = false) :
    s1.st.emulationActive = false ∧
      s1.st.out.filter Event.isExecCall = s.st.out.filter Event.isExecCall := by
  induction h with
  | refl => exact ⟨he, rfl⟩
  | tail _ hstep ih =>
    obtain ⟨h1, h2⟩ := step_after_shutdown ver _ _ hstep ih.1
    exact ⟨h1, h2.trans ih.2⟩

/-- C5: `opRequest` on a staged `shutdown` without parameters clears `emulationActive`, and in
every run of the two threads from the state so reached (whatever the operator thread is doing
at that moment, also when it waits in `fgets` and stages one more line) `emulationActive`
stays cleared and no handler is called in execute mode any more: the calls in execute mode
recorded in the trace are those made up to the shutdown. -/
theorem shutdown_is_final (DtCyberVersion : List Nat) (st : OpState)
    (ha : st.opActive = true) (hf : st.opCmdFunction = some .opCmdShutdown)
    (hp : st.opCmdParams = []) :
    ∃ st1, opRequest DtCyberVersion st = some st1 ∧ st1.emulationActive = false ∧
      ∀ (pc : InputPc) (s : System), Run DtCyberVersion ⟨st1, pc⟩ s →
        s.st.emulationActive = false ∧
        s.st.out.filter Event.isExecCall = st1.out.filter Event.isExecCall := by
  have hcall : callHandler DtCyberVersion 2 .opCmdShutdown false (some []) st
      = some ({ st.emit (.call .opCmdShutdown false (some [])) with
          opActive := false, emulationActive := false }.printf
          "\nThanks for using %s\nGoodbye for now.\n\n" [DtCyberVersion]) := by
    simp [callHandler, opCmdShutdown]
  have hreq : ∃ st1, opRequest DtCyberVersion st = some st1 ∧ st1.emulationActive = false := by
    simp only [opRequest, ha, hf, hp, hcall, if_true]
    split
    · exact ⟨_, rfl, rfl⟩
    · exact ⟨_, rfl, (opRequestReturn_spec _).2.1⟩
  obtain ⟨st1, h1, h2⟩ := hreq
  exact ⟨st1, h1, h2, fun pc s hrun => run_after_shutdown DtCyberVersion ⟨st1, pc⟩ s hrun h2⟩

theorem shutdown_is_final_witness :
    ∃ st1, opRequest (cstr "DtCyber") shutdownStaged = some st1 ∧
      st1.emulationActive = false ∧
      ∀ (pc : InputPc) (s : System), Run (cstr "DtCyber") ⟨st1, pc⟩ s →
        s.st.emulationActive = false ∧
        s.st.out.filter Event.isExecCall = st1.out.filter Event.isExecCall :=
  shutdown_is_final (cstr "DtCyber") shutdownStaged rfl rfl rfl


/-- The statement of C5 is not empty: the operator thread can be waiting in `fgets` when the
shutdown is executed, and the line it then reads is staged (and, by the main loop having
ended, never executed). -/
theorem stage_after_shutdown_possible :
    opRequest [] shutdownStaged = some afterShutdown ∧
    Run [] ⟨afterShutdown, .fgets⟩ ⟨stagedAfterShutdown, .loopTest⟩ ∧
    stagedAfterShutdown.opActive = true := by
  refine ⟨by decide, ?_, rfl⟩
  exact Relation.ReflTransGen.single
    (Step.line ⟨afterShutdown, .fgets⟩ (some (cstr "lt 1\n")) stagedAfterShutdown rfl
      (by decide))

theorem takeWhile_append_singleton_neg (p : Nat → Bool) (l : List Nat) (x : Nat)
    (hx : p x = false) : (l ++ [x]).takeWhile p = l.takeWhile p := by
  induction l with
  | nil => simp [List.takeWhile_cons, hx]
  | cons a l ih =>
    by_cases ha : p a = true
    · simp [List.takeWhile_cons, ha, ih]
    · simp [List.takeWhile_cons, ha]

/-- For a line as `fgets` delivers it (a newline can only be its last character), the first
token of the line is the first token of the line without its newline. -/
theorem firstToken_stripNewline (a : List Nat) (ha : ∀ c ∈ a, c ≠ 10) :
    stripNewline (a ++ [10]) = a ∧ stripNewline a = a ∧
      firstToken (a ++ [10]) = firstToken a := by
  have h1 : stripNewline (a ++ [10]) = a := by
    unfold stripNewline
    rw [takeWhile_append_singleton_neg _ _ _ (by decide)]
    exact List.takeWhile_eq_self_iff.mpr (by simpa using ha)
  have h2 : stripNewline a = a :=
    List.takeWhile_eq_self_iff.mpr (by simpa using ha)
  refine ⟨h1, h2, ?_⟩
  unfold firstToken
  rw [List.dropWhile_append]
  cases hd : a.dropWhile isspace with
  | nil => simp [isspace]
  | cons d r =>
    simp only [List.isEmpty_cons, Bool.false_eq_true, if_false]
    exact takeWhile_append_singleton_neg _ (d :: r) 10 (by decide)


/-! ## Tokens that do not fit the array `name` -/

theorem drop_79_of_length_80 (l : List Nat) (h : l.length = 80) :
    l.drop 79 = [l.getD 79 0] := by
  have hl : (l.drop 79).length = 1 := by simp [h]
  obtain ⟨x, hx⟩ := List.length_eq_one.mp hl
  have := charAt_of_drop_cons hx
  unfold charAt at this
  rw [hx, this]

theorem lookup_long_eq_none (n : List Nat) (h : 13 ≤ n.length) : lookup n = none := by
  cases hl : lookup n with
  | none => rfl
  | some cp =>
    obtain ⟨hm, hn⟩ := lookup_mem hl
    have := decode_name_short cp hm
    rw [hn] at this
    omega

/-- The pass of the loop body on a line whose first token has 80 or more characters, when the
operator is neither paused nor busy: `opGetString` returns `NULL` after it has stored 79
characters, the search finds no entry, and the message is printed from `name`, whose last
byte was not written. -/
theorem opThreadBody_too_long (st : OpState) (cmd : List Nat)
    (hp : st.opPaused = false) (ha : st.opActive = false) (hname : st.name.length = 80)
    (hlen : cmd.length ≤ 255) (hnz : ∀ c ∈ cmd, c ≠ 0)
    (hlong : 80 ≤ (firstToken (stripNewline cmd)).length) :
    opGetString 256 (stripNewline cmd) st.name 80
      = some ⟨none, (firstToken (stripNewline cmd)).take 79 ++ [st.name.getD 79 0]⟩ ∧
    lookup (cstrOf ((firstToken (stripNewline cmd)).take 79 ++ [st.name.getD 79 0])) = none ∧
    opThreadBody st (some cmd) =
      if st.name.getD 79 0 = 0 then
        some (((({ st with
          name := (firstToken (stripNewline cmd)).take 79 ++ [st.name.getD 79 0] }.printf
          "Command not implemented: %s\n\n" [(firstToken (stripNewline cmd)).take 79]).printf
          "Try 'help' to get a list of commands or 'help <command>'\n" []).printf
          "to get a brief description of a command.\n" []).printf "\nOperator> " [])
      else
        none := by
  generalize htxt : stripNewline cmd = text at hlong ⊢
  have htl : text.length ≤ 255 := by
    rw [← htxt]; exact Nat.le_trans (stripNewline_length cmd) hlen
  have htz : ∀ c ∈ text, c ≠ 0 := by
    rw [← htxt]; exact stripNewline_nonzero cmd hnz
  have htokz : ∀ c ∈ firstToken text, c ≠ 0 := fun c hc => htz c (firstToken_subset text c hc)
  have ht79z : ∀ c ∈ (firstToken text).take 79, c ≠ 0 :=
    fun c hc => htokz c (List.mem_of_mem_take hc)
  have hl79 : ((firstToken text).take 79).length = 79 := by
    rw [List.length_take]; omega
  have hg := opGetString_overflow text st.name 80 256 htz htl (by omega) (by decide)
    (by omega)
  have h79 : ((80 : Int) - 1).toNat = 79 := by decide
  rw [h79, putBytes_eq _ _ 0 (by omega)] at hg
  simp only [List.take_zero, List.nil_append, Nat.zero_add, hl79,
    drop_79_of_length_80 st.name hname] at hg
  have hne : cmd ≠ [] := by
    rintro rfl
    simp [stripNewline] at htxt
    subst htxt
    simp [firstToken] at hlong
  have hcl : cmd.length ≠ 0 := fun h => hne (List.length_eq_zero.mp h)
  obtain ⟨c, r, hcr⟩ : ∃ c r, (firstToken text).take 79 = c :: r := by
    cases h : (firstToken text).take 79 with
    | nil => rw [h] at hl79; simp at hl79
    | cons c r => exact ⟨c, r, rfl⟩
  have hc0 : c ≠ 0 := ht79z c (by rw [hcr]; exact List.mem_cons_self _ _)
  have hget : ((firstToken text).take 79 ++ [st.name.getD 79 0]).getD 0 0 = c := by
    rw [hcr]; rfl
  have hcs : cstrOf ((firstToken text).take 79 ++ [st.name.getD 79 0])
      = (firstToken text).take 79 ++ cstrOf [st.name.getD 79 0] := by
    unfold cstrOf
    rw [List.takeWhile_append_of_pos (by simpa using ht79z)]
  have hlk : lookup (cstrOf ((firstToken text).take 79 ++ [st.name.getD 79 0])) = none := by
    apply lookup_long_eq_none
    rw [hcs, List.length_append, hl79]
    omega
  refine ⟨hg, hlk, ?_⟩
  have hn0 : 0 ∉ (firstToken text).take 79 := fun h => ht79z 0 h rfl
  generalize st.name.getD 79 0 = x at hg hget hcs hlk ⊢
  simp only [opThreadBody, hp, ha, htxt, hg, beq_iff_eq, hcl, hget, hc0, hlk]
  by_cases h0 : x = 0
  · subst h0
    have hcs0 : cstrOf ((firstToken text).take 79 ++ [0]) = (firstToken text).take 79 :=
      cstrOf_terminated _ [] ht79z
    simp [hcs0]
  · have h0s : ¬ (0 = x) := fun h => h0 h.symm
    simp [h0, h0s, hn0]

theorem opRequestReturn_keeps (st : OpState) :
    (opRequestReturn st).opPaused = st.opPaused ∧
    (opRequestReturn st).inPause = st.inPause ∧
    (opRequestReturn st).opCmdFunction = st.opCmdFunction ∧
    (opRequestReturn st).opCmdParams = st.opCmdParams ∧
    (opRequestReturn st).name = st.name := by
  unfold opRequestReturn
  cases h : st.emulationActive <;> simp [h, OpState.printf, OpState.emit]


/-- C11: on an input line whose command-name token has 80 or more characters, a pass of the
loop body, when the operator is neither paused nor busy, stages no command, whatever the
token begins with. `opGetString` returns `NULL`, the search over the decode table finds no
entry for what is in `name`, so whenever the pass ends, `opActive` is still false and
`opCmdFunction` and `opCmdParams` are unchanged; and the pass does end, with the message for
an unknown command, when the last byte of `name` is `0` (the message is printed from `name`,
to which no terminator was written). -/
theorem opThreadBody_long_token_not_staged (st : OpState) (cmd : List Nat)
    (hp : st.opPaused = false) (ha : st.opActive = false) (hname : st.name.length = 80)
    (hlen : cmd.length ≤ 255) (hnz : ∀ c ∈ cmd, c ≠ 0)
    (hlong : 80 ≤ (firstToken (stripNewline cmd)).length) :
    (∃ r, opGetString 256 (stripNewline cmd) st.name 80 = some r ∧ r.ret = none ∧
      lookup (cstrOf r.outStr) = none) ∧
    (∀ st1, opThreadBody st (some cmd) = some st1 →
      st1.opActive = false ∧ st1.opCmdFunction = st.opCmdFunction ∧
      st1.opCmdParams = st.opCmdParams) ∧
    (st.name.getD 79 0 = 0 →
      ∃ st1, opThreadBody st (some cmd) = some st1 ∧
        st1.opActive = false ∧ st1.opCmdFunction = st.opCmdFunction ∧
        st1.opCmdParams = st.opCmdParams ∧
        st1.out = st.out ++
          [ .printf "Command not implemented: %s\n\n" [(firstToken (stripNewline cmd)).take 79],
            .printf "Try 'help' to get a list of commands or 'help <command>'\n" [],
            .printf "to get a brief description of a command.\n" [],
            .printf "\nOperator> " [] ]) := by
  obtain ⟨hg, hlk, hb⟩ := opThreadBody_too_long st cmd hp ha hname hlen hnz hlong
  refine ⟨⟨_, hg, rfl, hlk⟩, ?_, ?_⟩
  · intro st1 h
    rw [hb] at h
    split at h
    · cases h
      exact ⟨ha, rfl, rfl⟩
    · cases h
  · intro h0
    rw [hb, if_pos h0]
    refine ⟨_, rfl, ha, rfl, rfl, ?_⟩
    simp [OpState.printf, OpState.emit]

set_option maxRecDepth 4000 in
theorem opThreadBody_long_token_not_staged_witness :
    ∃ st1, opThreadBody idleState (some longLine) = some st1 ∧
      st1.opActive = false ∧ st1.opCmdFunction = none ∧ st1.opCmdParams = [] ∧
      st1.out =
        [ .printf "Command not implemented: %s\n\n" [(firstToken (stripNewline longLine)).take 79],
          .printf "Try 'help' to get a list of commands or 'help <command>'\n" [],
          .printf "to get a brief description of a command.\n" [],
          .printf "\nOperator> " [] ] :=
  (opThreadBody_long_token_not_staged idleState longLine rfl rfl (by decide) (by decide)
    (by decide) (by decide)).2.2 (by decide)

/-- C12: for every non-empty parameter string, `opCmdPause` in execute mode prints
"no parameters expected" and the usage line and returns: `opPaused` keeps its value and the
emulation thread does not enter the wait loop. Called from `opRequest` (the command
`pause now`, staged with parameters `now`), the tick ends at once, with `opActive` cleared and
`opPaused` untouched. -/
theorem opCmdPause_rejects_params (DtCyberVersion : List Nat) (st : OpState)
    (params : List Nat) (hne : params ≠ []) :
    (∃ st1, opCmdPause false (some params) st = some st1 ∧
      st1.out = st.out ++
        [ .printf "no parameters expected\n" [],
          .printf "'pause' suspends emulation to reduce CPU load.\n" [] ] ∧
      st1.opPaused = st.opPaused ∧ st1.inPause = st.inPause ∧
      st1.opActive = st.opActive ∧ st1.emulationActive = st.emulationActive) ∧
    (st.opActive = true → st.opCmdFunction = some .opCmdPause → st.opCmdParams = params →
      st.inPause = false →
      ∃ st2, opRequest DtCyberVersion st = some st2 ∧
        st2.opPaused = st.opPaused ∧ st2.inPause = false ∧ st2.opActive = false ∧
        st2.out = st.out ++
          [ .call .opCmdPause false (some params),
            .printf "no parameters expected\n" [],
            .printf "'pause' suspends emulation to reduce CPU load.\n" [] ]
          ++ (if st.emulationActive then [.printf "\nOperator> " []] else [])) := by
  have hl : params.length ≠ 0 := fun h => hne (List.length_eq_zero.mp h)
  constructor
  · refine ⟨opHelpPause (st.printf "no parameters expected\n" []), ?_, ?_, rfl, rfl, rfl, rfl⟩
    · simp [opCmdPause, hl]
    · simp [opHelpPause, OpState.printf, OpState.emit]
  · intro ha hf hpar hi
    have hcall : callHandler DtCyberVersion 2 .opCmdPause false (some params) st
        = some (opHelpPause ((st.emit (.call .opCmdPause false (some params))).printf
            "no parameters expected\n" [])) := by
      simp [callHandler, opCmdPause, hl]
    refine ⟨opRequestReturn (opHelpPause ((st.emit (.call .opCmdPause false
      (some params))).printf "no parameters expected\n" [])), ?_, ?_, ?_, ?_, ?_⟩
    · simp [opRequest, ha, hf, hpar, hcall, opHelpPause, OpState.printf, OpState.emit, hi]
    · exact (opRequestReturn_keeps _).1
    · exact (opRequestReturn_keeps _).2.1.trans hi
    · exact (opRequestReturn_spec _).1
    · rw [(opRequestReturn_spec _).2.2]
      simp [opHelpPause, OpState.printf, OpState.emit]

theorem opCmdPause_rejects_params_witness :
    ∃ st1, opCmdPause false (some (cstr "now")) idleState = some st1 ∧
      st1.out =
        [ .printf "no parameters expected\n" [],
          .printf "'pause' suspends emulation to reduce CPU load.\n" [] ] ∧
      st1.opPaused = false ∧ st1.inPause = false ∧
      st1.opActive = false ∧ st1.emulationActive = true :=
  (opCmdPause_rejects_params [] idleState (cstr "now") (by decide)).1


theorem callHandler_helpText (ver : List Nat) (depth : Nat) (h : Handler)
    (q : Option (List Nat)) (st : OpState) :
    callHandler ver (depth + 1) h true q st
      = some { st with out := st.out ++ .call h true q :: helpText h } := by
  cases h <;>
    simp [callHandler, opCmdLoadCards, opCmdLoadTape, opCmdRemoveCards, opCmdRemovePaper,
      opCmdPause, opCmdHelp, opCmdShutdown, opHelpLoadCards, opHelpLoadTape, opHelpRemoveCards,
      opHelpRemovePaper, opHelpPause, opHelpHelp, opHelpShutdown, OpState.printf, OpState.emit,
      helpText]

/-- C13: `opCmdHelp` in execute mode with an empty parameter string prints the heading, then
one line `%s\n` for each entry of the decode table, in table order (`lc`, `lt`, `rc`, `rp`,
`p`, `load_cards`, `load_tape`, `remove_cards`, `remove_paper`, `?`, `help`, `shutdown`,
`pause`), then the closing hint; the 13 names are pairwise different, so each is printed once
and none is left out. -/
theorem opCmdHelp_lists_table
    (call : Handler → Bool → Option (List Nat) → OpState → Option OpState) (st : OpState) :
    opCmdHelp call false (some []) st
      = some { st with out := st.out ++
          ([.printf "\nList of available commands:\n\n" []] ++
            commandNames.map (fun n => Event.printf "%s\n" [n]) ++
            [.printf "\nTry 'help <command> to get a brief description of a command.\n" []]) } ∧
    decode.map (fun cp => cstr cp.name) = commandNames ∧
    commandNames.Nodup ∧ commandNames.length = 13 := by
  refine ⟨?_, by decide, by decide, by decide⟩
  have hmap : decode.map (fun cp => Event.printf "%s\n" [cstr cp.name])
      = commandNames.map (fun n => Event.printf "%s\n" [n]) := by decide
  simp only [opCmdHelp]
  rw [foldl_printf_names, hmap]
  simp [OpState.printf, OpState.emit]

/-- C14: for two names of the decode table bound to the same handler, `opCmdHelp` in execute
mode gives the same result for either name as parameter: a newline and then what the handler
prints when it is called in help mode. For a non-empty parameter that is not a name of the
table it prints "Command not implemented: " with the parameter. -/
theorem opCmdHelp_alias_same (DtCyberVersion : List Nat) (st : OpState) :
    (∀ a ∈ decode, ∀ b ∈ decode, a.handler = b.handler →
      opCmdHelp (callHandler DtCyberVersion 1) false (some (cstr a.name)) st
        = opCmdHelp (callHandler DtCyberVersion 1) false (some (cstr b.name)) st ∧
      opCmdHelp (callHandler DtCyberVersion 1) false (some (cstr a.name)) st
        = some { st with
            out := st.out ++ ([Event.printf "\n" [], Event.call a.handler true none]
              ++ helpText a.handler) }) ∧
    (∀ (call : Handler → Bool → Option (List Nat) → OpState → Option OpState)
      (params : List Nat), params ≠ [] → (∀ cp ∈ decode, cstr cp.name ≠ params) →
      opCmdHelp call false (some params) st
        = some { st with out := st.out ++ [.printf "Command not implemented: %s\n" [params]] })
    := by
  have key : ∀ a ∈ decode,
      opCmdHelp (callHandler DtCyberVersion 1) false (some (cstr a.name)) st
        = callHandler DtCyberVersion 1 a.handler true none (st.printf "\n" []) := by
    intro a ha
    have hl : (cstr a.name).length ≠ 0 :=
      fun h => decode_name_nonempty a ha (List.length_eq_zero.mp h)
    simp [opCmdHelp, hl, lookup_of_mem a ha]
  constructor
  · intro a ha b hb hab
    refine ⟨by rw [key a ha, key b hb, hab], ?_⟩
    rw [key a ha, callHandler_helpText]
    simp [OpState.printf, OpState.emit]
  · intro call params hne hno
    have hl : params.length ≠ 0 := fun h => hne (List.length_eq_zero.mp h)
    have hlk : lookup params = none := by
      cases h : lookup params with
      | none => rfl
      | some cp =>
        obtain ⟨hm, hn⟩ := lookup_mem h
        exact absurd hn (hno cp hm)
    simp [opCmdHelp, hl, hlk, OpState.printf, OpState.emit]

/-- C17: each forwarding handler in execute mode, when its parameter string is not empty,
calls its device actions once each, in the order of the source and with the parameter string
as it is (`cr405LoadCards` then `cr3447LoadCards`; `mt669LoadTape` then `mt679LoadTape`;
`lp1612RemovePaper` then `lp3000RemovePaper`; `cp3446RemoveCards`), and prints nothing; with an
empty parameter string it prints "parameters expected" and its usage line and calls no device
action. -/
theorem forwarding_handlers_call_devices (st : OpState) (params : List Nat) :
    (params ≠ [] →
      opCmdLoadCards false (some params) st = some { st with out := st.out ++
        [.device .cr405LoadCards params, .device .cr3447LoadCards params] } ∧
      opCmdLoadTape false (some params) st = some { st with out := st.out ++
        [.device .mt669LoadTape params, .device .mt679LoadTape params] } ∧
      opCmdRemovePaper false (some params) st = some { st with out := st.out ++
        [.device .lp1612RemovePaper params, .device .lp3000RemovePaper params] } ∧
      opCmdRemoveCards false (some params) st = some { st with out := st.out ++
        [.device .cp3446RemoveCards params] }) ∧
    (opCmdLoadCards false (some []) st = some { st with out := st.out ++
        [ .printf "parameters expected\n" [],
          .printf
            "'load_cards <channel>,<equipment>,<filename>' load specified card stack file.\n"
            [] ] } ∧
      opCmdLoadTape false (some []) st = some { st with out := st.out ++
        [ .printf "parameters expected\n" [],
          .printf
            "'load_tape <channel>,<equipment>,<unit>,<r|w>,<filename>' load specified tape.\n"
            [] ] } ∧
      opCmdRemovePaper false (some []) st = some { st with out := st.out ++
        [ .printf "parameters expected\n" [],
          .printf "'remove_paper <channel>,<equipment>' remover paper from printer.\n" [] ] } ∧
      opCmdRemoveCards false (some []) st = some { st with out := st.out ++
        [ .printf "parameters expected\n" [],
          .printf "'remove_cards <channel>,<equipment>' remover cards from card puncher.\n"
            [] ] }) := by
  constructor
  · intro hne
    have hl : params.length ≠ 0 := fun h => hne (List.length_eq_zero.mp h)
    simp [opCmdLoadCards, opCmdLoadTape, opCmdRemovePaper, opCmdRemoveCards, hl, hne,
      OpState.emit]
  · simp [opCmdLoadCards, opCmdLoadTape, opCmdRemovePaper, opCmdRemoveCards, opHelpLoadCards,
      opHelpLoadTape, opHelpRemovePaper, opHelpRemoveCards, OpState.printf, OpState.emit]

theorem forwarding_handlers_call_devices_witness :
    opCmdLoadCards false (some (cstr "1,2,deck")) idleState = some { idleState with out :=
      [.device .cr405LoadCards (cstr "1,2,deck"), .device .cr3447LoadCards (cstr "1,2,deck")] } ∧
    opCmdLoadTape false (some (cstr "1,2,deck")) idleState = some { idleState with out :=
      [.device .mt669LoadTape (cstr "1,2,deck"), .device .mt679LoadTape (cstr "1,2,deck")] } ∧
    opCmdRemovePaper false (some (cstr "1,2,deck")) idleState = some { idleState with out :=
      [.device .lp1612RemovePaper (cstr "1,2,deck"),
        .device .lp3000RemovePaper (cstr "1,2,deck")] } ∧
    opCmdRemoveCards false (some (cstr "1,2,deck")) idleState = some { idleState with out :=
      [.device .cp3446RemoveCards (cstr "1,2,deck")] } :=
  (forwarding_handlers_call_devices idleState (cstr "1,2,deck")).1 (by decide)

/-- C19: a call of a handler in help mode does not depend on its parameter: for every
parameter value, the `NULL` pointer included, the call is defined and appends the record of
the call and the description of the command (`printf` events only, no device action), and it
leaves `opPaused`, `opActive`, `emulationActive` and the rest of the state as they are. So
`help` with the name of any entry of the table is defined and changes none of the flags. -/
theorem help_mode_ignores_params (DtCyberVersion : List Nat) (depth : Nat) (h : Handler)
    (st : OpState) :
    (∀ q : Option (List Nat),
      callHandler DtCyberVersion (depth + 1) h true q st
        = some { st with out := st.out ++ .call h true q :: helpText h }) ∧
    (∀ e ∈ helpText h, ∃ f a, e = Event.printf f a) ∧
    (∀ cp ∈ decode, ∃ st1,
      opCmdHelp (callHandler DtCyberVersion 1) false (some (cstr cp.name)) st = some st1 ∧
      st1.opPaused = st.opPaused ∧ st1.opActive = st.opActive ∧
      st1.emulationActive = st.emulationActive ∧ st1.inPause = st.inPause) := by
  refine ⟨fun q => callHandler_helpText DtCyberVersion depth h q st, ?_, ?_⟩
  · cases h <;> simp [helpText]
  · intro cp hcp
    have hl : (cstr cp.name).length ≠ 0 :=
      fun h => decode_name_nonempty cp hcp (List.length_eq_zero.mp h)
    have hc : opCmdHelp (callHandler DtCyberVersion 1) false (some (cstr cp.name)) st
        = some { st.printf "\n" [] with
            out := (st.printf "\n" []).out ++ .call cp.handler true none ::
              helpText cp.handler } := by
      rw [← callHandler_helpText DtCyberVersion 0 cp.handler none (st.printf "\n" [])]
      simp [opCmdHelp, hl, lookup_of_mem cp hcp]
    exact ⟨_, hc, rfl, rfl, rfl, rfl⟩


/-- What a pass of the loop body can do to the pending command: nothing, or, from a state that
was not busy, stage the handler of the entry found for the string in `name`, with a suffix of
the line (without its newline) that fits `opCmdParams`. -/
theorem opThreadBody_cases (st st1 : OpState) (line : Option (List Nat))
    (h : opThreadBody st line = some st1) :
    (st1.opActive = st.opActive ∧ st1.opCmdFunction = st.opCmdFunction ∧
      st1.opCmdParams = st.opCmdParams) ∨
    (st.opActive = false ∧ st.opPaused = false ∧ st1.opActive = true ∧
      ∃ cmd p cp, line = some cmd ∧ lookup (cstrOf st1.name) = some cp ∧
        st1.opCmdFunction = some cp.handler ∧
        st1.opCmdParams = (stripNewline cmd).drop p ∧ st1.opCmdParams.length < 256) := by
  unfold opThreadBody at h
  split at h
  · cases h; exact Or.inl ⟨rfl, rfl, rfl⟩
  · split at h
    · cases h; exact Or.inl ⟨rfl, rfl, rfl⟩
    · split at h
      · cases h; exact Or.inl ⟨rfl, rfl, rfl⟩
      · split at h
        · cases h; exact Or.inl ⟨rfl, rfl, rfl⟩
        · dsimp only at h
          split at h
          · cases h
          · split at h
            · cases h; exact Or.inl ⟨rfl, rfl, rfl⟩
            · split at h
              · split at h
                · cases h
                · split at h
                  · cases h
                    rename_i hpz haz _ _ _ _ _ cp hlk _ p _ hfit
                    refine Or.inr ⟨by simpa using haz, by simpa using hpz, rfl,
                      _, p, cp, rfl, hlk, rfl, rfl, hfit⟩
                  · cases h
              · split at h
                · cases h; exact Or.inl ⟨rfl, rfl, rfl⟩
                · cases h


theorem decode_names_no_newline : ∀ cp ∈ decode, ∀ c ∈ cstr cp.name, c ≠ 10 ∧ c ≠ 13 := by
  decide

/-- C15, counterexample: two rejected lines without "a message and then the prompt". The blank
line `"  \n"`, read when the operator is idle, stages nothing and only the prompt is printed,
no message; the line `lc 1,2,deck`, read while the previous request is busy, stages nothing
and the busy notice is printed, not followed by the prompt. -/
theorem rejected_line_message_counterexample :
    (opThreadBody idleState (some (cstr "  \n"))).map (fun st1 => (st1.opActive, st1.out))
      = some (false, [.printf "\nOperator> " []]) ∧
    (opThreadBody busyState (some (cstr "lc 1,2,deck\n"))).map
        (fun st1 => (st1.opCmdFunction, st1.opCmdParams, st1.out))
      = some (some .opCmdLoadTape, cstr "1,2,3,r,tape1.dat",
          [.printf "\nPrevious request still busy" []]) := by
  constructor <;> decide

/-- C15, amended: what a pass of the loop body prints for an input line (a non-empty string
of at most 255 characters, as `fgets` delivers it) that it does not stage. When the pause flag
is set: nothing, the pass only clears the flag. When the pause flag is clear and the previous
request is busy: the notice "Previous request still busy" and no prompt. When the operator is
neither paused nor busy: for an empty command name (a line of whitespace only), the prompt and
no message; for a command name that is not empty and not in the table, the message
"Command not implemented: " with the name, the hint, then the prompt; for a token of 80 or
more characters, when the last byte of `name` is `0`, the same message with the first 79
characters of the token, the hint, then the prompt. In each of these cases `opActive`,
`opCmdFunction` and `opCmdParams` are left as they were. -/
theorem rejected_line_output (st : OpState) (cmd : List Nat) (hne : cmd ≠ [])
    (hlen : cmd.length ≤ 255) (hnz : ∀ c ∈ cmd, c ≠ 0) (hname : st.name.length = 80) :
    (st.opPaused = true →
      ∃ st1, opThreadBody st (some cmd) = some st1 ∧
        st1 = { st with opPaused := false } ∧ st1.out = st.out ∧
        st1.opActive = st.opActive ∧ st1.opCmdFunction = st.opCmdFunction ∧
        st1.opCmdParams = st.opCmdParams) ∧
    (st.opPaused = false → st.opActive = true →
      ∃ st1, opThreadBody st (some cmd) = some st1 ∧
        st1.out = st.out ++ [.printf "\nPrevious request still busy" []] ∧
        st1.opActive = st.opActive ∧ st1.opCmdFunction = st.opCmdFunction ∧
        st1.opCmdParams = st.opCmdParams) ∧
    (st.opPaused = false → st.opActive = false → firstToken (stripNewline cmd) = [] →
      ∃ st1, opThreadBody st (some cmd) = some st1 ∧
        st1.out = st.out ++ [.printf "\nOperator> " []] ∧
        st1.opActive = st.opActive ∧ st1.opCmdFunction = st.opCmdFunction ∧
        st1.opCmdParams = st.opCmdParams) ∧
    (st.opPaused = false → st.opActive = false → firstToken (stripNewline cmd) ≠ [] →
      (firstToken (stripNewline cmd)).length ≤ 79 →
      lookup (firstToken (stripNewline cmd)) = none →
      ∃ st1, opThreadBody st (some cmd) = some st1 ∧
        st1.out = st.out ++
          [ .printf "Command not implemented: %s\n\n" [firstToken (stripNewline cmd)],
            .printf "Try 'help' to get a list of commands or 'help <command>'\n" [],
            .printf "to get a brief description of a command.\n" [],
            .printf "\nOperator> " [] ] ∧
        st1.opActive = st.opActive ∧ st1.opCmdFunction = st.opCmdFunction ∧
        st1.opCmdParams = st.opCmdParams) ∧
    (st.opPaused = false → st.opActive = false →
      80 ≤ (firstToken (stripNewline cmd)).length → st.name.getD 79 0 = 0 →
      ∃ st1, opThreadBody st (some cmd) = some st1 ∧
        st1.out = st.out ++
          [ .printf "Command not implemented: %s\n\n" [(firstToken (stripNewline cmd)).take 79],
            .printf "Try 'help' to get a list of commands or 'help <command>'\n" [],
            .printf "to get a brief description of a command.\n" [],
            .printf "\nOperator> " [] ] ∧
        st1.opActive = st.opActive ∧ st1.opCmdFunction = st.opCmdFunction ∧
        st1.opCmdParams = st.opCmdParams) := by
  have hcl : cmd.length ≠ 0 := fun h => hne (List.length_eq_zero.mp h)
  refine ⟨?_, ?_, ?_, ?_, ?_⟩
  · intro hp
    exact ⟨{ st with opPaused := false }, by simp [opThreadBody, hcl, hp], rfl, rfl, rfl, rfl,
      rfl⟩
  · intro hp ha
    exact ⟨st.printf "\nPrevious request still busy" [], by simp [opThreadBody, hcl, ha, hp],
      by simp [OpState.printf, OpState.emit], rfl, rfl, rfl⟩
  · intro hp ha htok
    have hb := opThreadBody_parsed st cmd hp ha hname hne hlen hnz (by rw [htok]; simp)
    rw [if_pos htok] at hb
    exact ⟨_, hb, by simp [OpState.printf, OpState.emit], rfl, rfl, rfl⟩
  · intro hp ha htok hfit hunk
    have hb := opThreadBody_parsed st cmd hp ha hname hne hlen hnz hfit
    rw [if_neg htok, hunk] at hb
    exact ⟨_, hb, by simp [OpState.printf, OpState.emit], rfl, rfl, rfl⟩
  · intro hp ha hlong h0
    obtain ⟨_, _, hb⟩ := opThreadBody_too_long st cmd hp ha hname hlen hnz hlong
    rw [if_pos h0] at hb
    exact ⟨_, hb, by simp [OpState.printf, OpState.emit], rfl, rfl, rfl⟩

theorem rejected_line_output_witness :
    ∃ st1, opThreadBody idleState (some (cstr "foo bar\n")) = some st1 ∧
      st1.out =
        [ .printf "Command not implemented: %s\n\n" [cstr "foo"],
          .printf "Try 'help' to get a list of commands or 'help <command>'\n" [],
          .printf "to get a brief description of a command.\n" [],
          .printf "\nOperator> " [] ] ∧
      st1.opActive = false ∧ st1.opCmdFunction = none ∧ st1.opCmdParams = [] :=
  (rejected_line_output idleState (cstr "foo bar\n") (by decide) (by decide) (by decide)
    (by decide)).2.2.2.1 rfl rfl (by decide) (by decide) (by decide)

/-- C16, counterexample: the line `lt x` ending in `\r\n`. Only the `\n` is removed, the text
handed to `opGetString` ends in `\r`, and the staged parameter string is `x\r`. -/
theorem carriage_return_kept_counterexample :
    stripNewline (cstr "lt x\r\n") = cstr "lt x\r" ∧
    (opThreadBody idleState (some (cstr "lt x\r\n"))).map
        (fun st1 => (st1.opActive, st1.opCmdFunction, st1.opCmdParams))
      = some (true, some .opCmdLoadTape, cstr "x\r") ∧
    13 ∈ cstr "x\r" := by
  refine ⟨by decide, by decide, by decide⟩

/-- C16, amended: the newline `\n` is removed before parsing, other line terminators are not.
The text handed to `opGetString` contains no `\n`; the command name, being free of whitespace,
contains neither `\n` nor `\r`; what follows it contains no `\n`; and whenever a pass stages a
command, `opCmdParams` contains no `\n` and the name in `name` neither `\n` nor `\r`. (A `\r`
before the `\n` stays in the text and can end the staged parameter string.) -/
theorem newline_stripped (cmd : List Nat) :
    (∀ c ∈ stripNewline cmd, c ≠ 10) ∧
    (∀ c ∈ firstToken (stripNewline cmd), c ≠ 10 ∧ c ≠ 13) ∧
    (∀ c ∈ afterToken (stripNewline cmd), c ≠ 10) ∧
    (∀ st st1 : OpState, st.opActive = false → opThreadBody st (some cmd) = some st1 →
      st1.opActive = true →
      (∀ c ∈ st1.opCmdParams, c ≠ 10) ∧ (∀ c ∈ cstrOf st1.name, c ≠ 10 ∧ c ≠ 13)) := by
  have h1 : ∀ c ∈ stripNewline cmd, c ≠ 10 := by
    intro c hc
    simpa using List.mem_takeWhile_imp hc
  refine ⟨h1, ?_, ?_, ?_⟩
  · intro c hc
    have := firstToken_not_space _ c hc
    constructor <;> (rintro rfl; exact absurd this (by decide))
  · intro c hc
    rw [← drop_afterTokenPos] at hc
    exact h1 c (List.mem_of_mem_drop hc)
  · intro st st1 ha hb hact
    rcases opThreadBody_cases st st1 _ hb with ⟨h, _, _⟩ | ⟨_, _, _, cmd1, p, cp, hl, hlk, _, hpar, _⟩
    · rw [hact, ha] at h
      exact absurd h (by decide)
    · cases hl
      constructor
      · intro c hc
        rw [hpar] at hc
        exact h1 c (List.mem_of_mem_drop hc)
      · obtain ⟨hm, hn⟩ := lookup_mem hlk
        rw [← hn]
        exact decode_names_no_newline cp hm

theorem newline_stripped_witness :
    ∀ st1 : OpState, opThreadBody idleState (some (cstr "lt x\r\n")) = some st1 →
      st1.opActive = true →
      (∀ c ∈ st1.opCmdParams, c ≠ 10) ∧ (∀ c ∈ cstrOf st1.name, c ≠ 10 ∧ c ≠ 13) :=
  fun st1 => (newline_stripped (cstr "lt x\r\n")).2.2.2 idleState st1 rfl


/-! ## The handoff invariant -/

theorem copyName_length : ∀ (fuel : Nat) (s : List Nat) (outSize : Int) (pos len : Nat)
    (out : List Nat) (e : CopyExit), copyName fuel s outSize pos len out = some e →
    (match e with
      | .null o => o.length
      | .done _ _ o => o.length) = out.length := by
  intro fuel
  induction fuel with
  | zero => intro s outSize pos len out e h; simp [copyName] at h
  | succ f ih =>
    intro s outSize pos len out e h
    unfold copyName at h
    split at h
    · split at h
      · cases h; rfl
      · have := ih _ _ _ _ _ _ h
        simpa using this
    · cases h; rfl

theorem opGetString_length (fuel : Nat) (s out : List Nat) (outSize : Int) (r : ParseResult)
    (h : opGetString fuel s out outSize = some r) : r.outStr.length = out.length := by
  unfold opGetString at h
  split at h
  · cases h
  · split at h
    · cases h; simp
    · split at h
      · cases h
      · rename_i hc
        cases h
        exact copyName_length _ _ _ _ _ _ _ hc
      · rename_i hc
        split at h
        · cases h
        · cases h
          have := copyName_length _ _ _ _ _ _ _ hc
          simpa using this

theorem opThreadBody_name_length (st st1 : OpState) (line : Option (List Nat))
    (h : opThreadBody st line = some st1) : st1.name.length = st.name.length := by
  unfold opThreadBody at h
  split at h
  · cases h; rfl
  · split at h
    · cases h; rfl
    · split at h
      · cases h; rfl
      · split at h
        · cases h; rfl
        · dsimp only at h
          split at h
          · cases h
          · rename_i r hg
            have hl := opGetString_length _ _ _ _ _ hg
            split at h
            · cases h; exact hl
            · split at h
              · split at h
                · cases h
                · split at h
                  · cases h; exact hl
                  · cases h
              · split at h
                · cases h; exact hl
                · cases h

theorem opRequest_cases (ver : List Nat) (st st1 : OpState)
    (h : opRequest ver st = some st1) :
    st1.name = st.name ∧
    (st1.opActive = true →
      st.opActive = true ∧ st1.opCmdFunction = st.opCmdFunction ∧
      st1.opCmdParams = st.opCmdParams) := by
  unfold opRequest at h
  split at h
  · rename_i ha
    split at h
    · cases h
    · rename_i hd hf
      obtain ⟨st2, evs, h1, _, _, h4, h5, h6, _⟩ := callHandler_exec ver hd st.opCmdParams st
      rw [h1] at h
      simp only at h
      split at h
      · cases h
        exact ⟨h6, fun _ => ⟨ha, h4, h5⟩⟩
      · cases h
        refine ⟨(opRequestReturn_keeps st2).2.2.2.2.trans h6, fun hx => ?_⟩
        rw [(opRequestReturn_spec st2).1] at hx
        exact absurd hx (by decide)
  · cases h
    exact ⟨rfl, fun hx => ⟨hx, rfl, rfl⟩⟩

theorem step_keeps_handoff (ver : List Nat) (s s1 : System) (h : Step ver s s1)
    (hn : s.st.name.length = 80)
    (hi : s.st.opActive = true →
      (∃ cp ∈ decode, s.st.opCmdFunction = some cp.handler) ∧ s.st.opCmdParams.length ≤ 255) :
    s1.st.name.length = 80 ∧
    (s1.st.opActive = true →
      (∃ cp ∈ decode, s1.st.opCmdFunction = some cp.handler) ∧
      s1.st.opCmdParams.length ≤ 255) := by
  cases h with
  | enterLoop _ _ => exact ⟨hn, hi⟩
  | leaveLoop _ _ => exact ⟨hn, hi⟩
  | line ln st1 _ hb =>
    refine ⟨(opThreadBody_name_length _ _ _ hb).trans hn, ?_⟩
    show st1.opActive = true → _
    intro hact
    rcases opThreadBody_cases _ _ _ hb with ⟨h1, h2, h3⟩ | ⟨_, _, _, cmd, p, cp, _, hlk, hf, _, hfit⟩
    · rw [h2, h3]
      exact hi (h1 ▸ hact)
    · exact ⟨⟨cp, (lookup_mem hlk).1, hf⟩, Nat.le_of_lt_succ hfit⟩
  | tick st1 _ _ hr =>
    obtain ⟨h1, h2⟩ := opRequest_cases ver _ _ hr
    refine ⟨h1 ▸ hn, ?_⟩
    show st1.opActive = true → _
    intro hact
    obtain ⟨ha, hf, hp⟩ := h2 hact
    rw [hf, hp]
    exact hi ha
  | wait _ =>
    show (opCmdPauseWait s.st).name.length = 80 ∧ ((opCmdPauseWait s.st).opActive = true → _)
    unfold opCmdPauseWait
    split
    · exact ⟨hn, hi⟩
    · refine ⟨by rw [(opRequestReturn_keeps _).2.2.2.2]; exact hn, fun hx => ?_⟩
      rw [(opRequestReturn_spec _).1] at hx
      exact absurd hx (by decide)


/-- C18: in every state reachable from an initial state (`opActive` false, `name` an array of
80 bytes; `opCmdFunction` is unset there, but nothing depends on it) by steps of the operator
thread and of the emulation thread, whenever `opActive` is set `opCmdFunction` is the handler
of an entry of the decode table and `opCmdParams` holds at most 255 characters. Hence
`opRequest` is defined in every such state (it never calls through an unset pointer), and a
pass that stages a command from a line of at most 255 characters is defined (the `strcpy`
stays inside `opCmdParams`). -/
theorem handoff_invariant (DtCyberVersion : List Nat) (s0 s : System)
    (h0a : s0.st.opActive = false) (h0n : s0.st.name.length = 80)
    (hrun : Run DtCyberVersion s0 s) :
    (s.st.opActive = true →
      (∃ cp ∈ decode, s.st.opCmdFunction = some cp.handler) ∧
      s.st.opCmdParams.length ≤ 255) ∧
    (∃ st1, opRequest DtCyberVersion s.st = some st1) ∧
    (∀ (cmd : List Nat) (cp : OpCmd), s.st.opPaused = false → s.st.opActive = false →
      cmd.length ≤ 255 → (∀ c ∈ cmd, c ≠ 0) → cp ∈ decode →
      firstToken (stripNewline cmd) = cstr cp.name →
      ∃ st1, opThreadBody s.st (some cmd) = some st1 ∧ st1.opActive = true ∧
        st1.opCmdFunction = some cp.handler ∧ st1.opCmdParams.length ≤ 255) := by
  have hinv : s.st.name.length = 80 ∧
      (s.st.opActive = true →
        (∃ cp ∈ decode, s.st.opCmdFunction = some cp.handler) ∧
        s.st.opCmdParams.length ≤ 255) := by
    induction hrun with
    | refl =>
      refine ⟨h0n, fun h => ?_⟩
      rw [h0a] at h
      exact absurd h (by decide)
    | tail _ hstep ih => exact step_keeps_handoff DtCyberVersion _ _ hstep ih.1 ih.2
  obtain ⟨hn, hi⟩ := hinv
  refine ⟨hi, ?_, ?_⟩
  · cases ha : s.st.opActive with
    | false => exact ⟨s.st, by simp [opRequest, ha]⟩
    | true =>
      obtain ⟨⟨cp, _, hf⟩, _⟩ := hi ha
      obtain ⟨st2, evs, h1, _⟩ := callHandler_exec DtCyberVersion cp.handler s.st.opCmdParams s.st
      simp only [opRequest, ha, hf, h1, if_true]
      split
      · exact ⟨_, rfl⟩
      · exact ⟨_, rfl⟩
  · intro cmd cp hp ha hlen hnz hcp htok
    have hnn : firstToken (stripNewline cmd) ≠ [] := by
      rw [htok]; exact decode_name_nonempty cp hcp
    have hfit : (firstToken (stripNewline cmd)).length ≤ 79 := by
      rw [htok]; exact Nat.le_trans (decode_name_short cp hcp) (by decide)
    have hne : cmd ≠ [] := by
      rintro rfl
      exact hnn (by simp [stripNewline, firstToken])
    have hb := opThreadBody_parsed s.st cmd hp ha hn hne hlen hnz hfit
    rw [if_neg hnn, htok, lookup_of_mem cp hcp] at hb
    simp only at hb
    refine ⟨_, hb, rfl, rfl, ?_⟩
    show (afterToken (stripNewline cmd)).length ≤ 255
    rw [← drop_afterTokenPos, List.length_drop]
    have := stripNewline_length cmd
    omega

theorem handoff_invariant_witness :
    (stagedState.opActive = true →
      (∃ cp ∈ decode, stagedState.opCmdFunction = some cp.handler) ∧
      stagedState.opCmdParams.length ≤ 255) ∧
    (∃ st1, opRequest [] stagedState = some st1) ∧
    (∀ (cmd : List Nat) (cp : OpCmd), stagedState.opPaused = false →
      stagedState.opActive = false →
      cmd.length ≤ 255 → (∀ c ∈ cmd, c ≠ 0) → cp ∈ decode →
      firstToken (stripNewline cmd) = cstr cp.name →
      ∃ st1, opThreadBody stagedState (some cmd) = some st1 ∧ st1.opActive = true ∧
        st1.opCmdFunction = some cp.handler ∧ st1.opCmdParams.length ≤ 255) :=
  handoff_invariant [] ⟨idleState, .loopTest⟩ ⟨stagedState, .loopTest⟩ rfl (by decide)
    (Relation.ReflTransGen.tail
      (Relation.ReflTransGen.single (Step.enterLoop ⟨idleState, .loopTest⟩ rfl rfl))
      (Step.line ⟨idleState, .fgets⟩ (some (cstr "lt 1\n")) stagedState rfl (by decide)))


/-! ## The counters of `opGetString` -/

theorem skipSpaceT_fst : ∀ (fuel : Nat) (s : List Nat) (pos : Nat),
    (skipSpaceT fuel s pos).map Prod.fst = skipSpace fuel s pos := by
  intro fuel
  induction fuel with
  | zero => intro s pos; rfl
  | succ f ih =>
    intro s pos
    unfold skipSpaceT skipSpace
    split
    · rw [← ih]
      cases skipSpaceT f s ((pos + 1) % 256) <;> rfl
    · rfl

theorem copyNameT_fst : ∀ (fuel : Nat) (s : List Nat) (outSize : Int) (pos len : Nat)
    (out : List Nat),
    (copyNameT fuel s outSize pos len out).map Prod.fst = copyName fuel s outSize pos len out := by
  intro fuel
  induction fuel with
  | zero => intro s outSize pos len out; rfl
  | succ f ih =>
    intro s outSize pos len out
    unfold copyNameT copyName
    split
    · split
      · rfl
      · rw [← ih]
        cases copyNameT f s outSize ((pos + 1) % 256) ((len + 1) % 256)
          (out.set len (charAt s pos)) <;> rfl
    · rfl

/-- The function with the record computes what `opGetString` computes. -/
theorem opGetStringT_fst (fuel : Nat) (s out : List Nat) (outSize : Int) :
    (opGetStringT fuel s out outSize).map Prod.fst = opGetString fuel s out outSize := by
  unfold opGetStringT opGetString
  rw [← skipSpaceT_fst]
  cases skipSpaceT fuel s 0 with
  | none => rfl
  | some a =>
    obtain ⟨pos, tr1⟩ := a
    simp only [Option.map_some']
    split
    · rfl
    · rw [← copyNameT_fst]
      cases copyNameT fuel s outSize pos 0 out with
      | none => rfl
      | some b =>
        obtain ⟨e, tr2⟩ := b
        cases e with
        | null o => rfl
        | done p2 l2 o =>
          simp only [Option.map_some']
          rw [← skipSpaceT_fst]
          cases skipSpaceT fuel s p2 with
          | none => rfl
          | some c => rfl

theorem skipSpaceT_bounds (s : List Nat) (hnz : ∀ c ∈ s, c ≠ 0) :
    ∀ (t : List Nat) (pos fuel : Nat), s.drop pos = t → pos + t.length ≤ 255 →
      t.length < fuel →
      ∃ p tr, skipSpaceT fuel s pos = some (p, tr) ∧ ∀ x ∈ tr, x ≤ s.length := by
  intro t
  induction t with
  | nil =>
    intro pos fuel h _ hf
    obtain ⟨f, rfl⟩ : ∃ f, fuel = f + 1 := ⟨fuel - 1, by simp at hf; omega⟩
    exact ⟨pos, [], by simp [skipSpaceT, charAt_of_drop_nil h], by simp⟩
  | cons c t ih =>
    intro pos fuel h hb hf
    obtain ⟨f, rfl⟩ : ∃ f, fuel = f + 1 := ⟨fuel - 1, by omega⟩
    have hc := charAt_of_drop_cons h
    have hcz : c ≠ 0 := hnz c (mem_of_drop_cons h)
    have hpos : pos < s.length := by
      have := congrArg List.length h
      simp at this
      omega
    simp only [List.length_cons] at hb hf
    by_cases hs : isspace c = true
    · have hm : (pos + 1) % 256 = pos + 1 := Nat.mod_eq_of_lt (by omega)
      obtain ⟨p, tr, h1, h2⟩ := ih (pos + 1) f (drop_succ_of_drop_cons h) (by omega) (by omega)
      refine ⟨p, (pos + 1) :: tr, ?_, ?_⟩
      · simp [skipSpaceT, hc, hm, hs, hcz, h1]
      · intro x hx
        rcases List.mem_cons.mp hx with rfl | hx
        · omega
        · exact h2 x hx
    · exact ⟨pos, [], by simp [skipSpaceT, hc, hs], by simp⟩

theorem copyNameT_bounds (s : List Nat) (hnz : ∀ c ∈ s, c ≠ 0) (outSize : Int) :
    ∀ (t : List Nat) (pos len fuel : Nat) (out : List Nat), s.drop pos = t →
      pos + t.length ≤ 255 → len ≤ pos → t.length < fuel →
      ∃ e tr, copyNameT fuel s outSize pos len out = some (e, tr) ∧
        (∀ x ∈ tr, x.1 ≤ s.length ∧ x.2 ≤ x.1 ∧ (x.2 : Int) ≤ outSize - 1) ∧
        (∀ p l o, e = .done p l o → p + (s.drop p).length ≤ 255) := by
  intro t
  induction t with
  | nil =>
    intro pos len fuel out h _ _ hf
    obtain ⟨f, rfl⟩ : ∃ f, fuel = f + 1 := ⟨fuel - 1, by simp at hf; omega⟩
    refine ⟨.done pos len out, [], by simp [copyNameT, charAt_of_drop_nil h], by simp, ?_⟩
    intro p l o he
    cases he
    rw [h]
    simpa using (show pos ≤ 255 by simpa using ‹pos + ([] : List Nat).length ≤ 255›)
  | cons c t ih =>
    intro pos len fuel out h hb hl hf
    obtain ⟨f, rfl⟩ : ∃ f, fuel = f + 1 := ⟨fuel - 1, by omega⟩
    have hc := charAt_of_drop_cons h
    have hcz : c ≠ 0 := hnz c (mem_of_drop_cons h)
    have hpos : pos < s.length := by
      have := congrArg List.length h
      simp at this
      omega
    simp only [List.length_cons] at hb hf
    by_cases hs : isspace c = true
    · refine ⟨.done pos len out, [], by simp [copyNameT, hc, hs], by simp, ?_⟩
      intro p l o he
      cases he
      rw [h]
      simpa using hb
    · have hs' : isspace c = false := by simpa using hs
      by_cases hge : (len : Int) ≥ outSize - 1
      · exact ⟨.null out, [], by simp [copyNameT, hc, hs', hcz, hge], by simp,
          fun p l o he => by cases he⟩
      · have hm1 : (pos + 1) % 256 = pos + 1 := Nat.mod_eq_of_lt (by omega)
        have hm2 : (len + 1) % 256 = len + 1 := Nat.mod_eq_of_lt (by omega)
        obtain ⟨e, tr, h1, h2, h3⟩ := ih (pos + 1) (len + 1) f (out.set len c)
          (drop_succ_of_drop_cons h) (by omega) (by omega) (by omega)
        refine ⟨e, (pos + 1, len + 1) :: tr, ?_, ?_, h3⟩
        · simp only [copyNameT, hc, hm1, hm2, hs', if_neg hge, h1]
          simp [hcz]
        · intro x hx
          rcases List.mem_cons.mp hx with rfl | hx
          · refine ⟨by omega, by simp; omega, ?_⟩
            push_cast
            omega
          · exact h2 x hx


theorem opGetStringT_bounds (s out : List Nat) (outSize : Int) (fuel : Nat)
    (hnz : ∀ c ∈ s, c ≠ 0) (hlen : s.length ≤ 255) (hfuel : s.length < fuel) :
    ∃ r posIncr lenIncr, opGetStringT fuel s out outSize = some (r, posIncr, lenIncr) ∧
      (∀ x ∈ posIncr, x ≤ s.length) ∧
      (∀ y ∈ lenIncr, y ≤ s.length ∧ (y : Int) ≤ outSize - 1) := by
  have l1 := length_takeWhile_add_dropWhile isspace s
  have d1 : s.drop (0 + (s.takeWhile isspace).length) = s.dropWhile isspace :=
    drop_add_takeWhile isspace (List.drop_zero s)
  obtain ⟨p1, tr1, hs1, hb1⟩ := skipSpaceT_bounds s hnz s 0 fuel (List.drop_zero s)
    (by omega) hfuel
  have hp1 : p1 = (s.takeWhile isspace).length := by
    have h1 := skipSpaceT_fst fuel s 0
    rw [hs1, skipSpace_eq s hnz s 0 fuel (List.drop_zero s) (by omega) hfuel] at h1
    simpa using h1
  simp only [Nat.zero_add] at d1
  rw [← hp1] at d1
  unfold opGetStringT
  rw [hs1]
  simp only
  split
  · exact ⟨_, _, _, rfl, hb1, by simp⟩
  · obtain ⟨e, tr2, hc2, hb2, hd2⟩ := copyNameT_bounds s hnz outSize (s.dropWhile isspace) p1 0
      fuel out d1 (by omega) (by omega) (by omega)
    rw [hc2]
    have hpos2 : ∀ x ∈ tr1 ++ tr2.map Prod.fst, x ≤ s.length := by
      intro x hx
      rcases List.mem_append.mp hx with hx | hx
      · exact hb1 x hx
      · obtain ⟨y, hy, rfl⟩ := List.mem_map.mp hx
        exact (hb2 y hy).1
    have hlen2 : ∀ y ∈ tr2.map Prod.snd, y ≤ s.length ∧ (y : Int) ≤ outSize - 1 := by
      intro y hy
      obtain ⟨x, hx, rfl⟩ := List.mem_map.mp hy
      obtain ⟨h1, h2, h3⟩ := hb2 x hx
      exact ⟨Nat.le_trans h2 h1, h3⟩
    cases e with
    | null o => exact ⟨_, _, _, rfl, hpos2, hlen2⟩
    | done p2 l2 o =>
      have hd := hd2 p2 l2 o rfl
      have hle : (s.drop p2).length ≤ s.length := by simp
      obtain ⟨p3, tr3, hs3, hb3⟩ := skipSpaceT_bounds s hnz (s.drop p2) p2 fuel rfl hd
        (by omega)
      simp only [hs3]
      refine ⟨_, _, _, rfl, ?_, hlen2⟩
      intro x hx
      rcases List.mem_append.mp hx with hx | hx
      · exact hpos2 x hx
      · exact hb3 x hx

/-- C20: for a string of at most 255 characters `opGetString` terminates (256 iterations per
loop are enough) and its 8-bit counters do not wrap: every value `pos + 1` that an increment
of `pos` computes is at most the length of the string, hence below 256, so `pos` never passes
the terminator and the pointer returned is inside the string, the remainder being a suffix of
it; every value `len + 1` that an increment of `len` computes is below 256 and at most
`outSize - 1`, so the name and its terminator fit an output array of `outSize` bytes. -/
theorem opGetString_counters_stay_in_range (s out : List Nat) (outSize : Int) (fuel : Nat)
    (hnz : ∀ c ∈ s, c ≠ 0) (hlen : s.length ≤ 255) (hfuel : 256 ≤ fuel)
    (hsize : 1 ≤ outSize) (hout : (out.length : Int) = outSize) :
    ∃ r posIncr lenIncr,
      opGetStringT fuel s out outSize = some (r, posIncr, lenIncr) ∧
      opGetString fuel s out outSize = some r ∧
      (∀ x ∈ posIncr, x ≤ s.length ∧ x < 256) ∧
      (∀ y ∈ lenIncr, y < 256 ∧ (y : Int) ≤ outSize - 1) ∧
      (∀ p, r.ret = some p → p ≤ s.length ∧ s.drop p <:+ s) ∧
      r.outStr.length = out.length ∧
      (r.ret ≠ none → (((cstrOf r.outStr).length + 1 : Nat) : Int) ≤ outSize) := by
  obtain ⟨r, pi, li, hT, hp, hl⟩ := opGetStringT_bounds s out outSize fuel hnz hlen (by omega)
  have hG : opGetString fuel s out outSize = some r := by
    rw [← opGetStringT_fst, hT]; rfl
  refine ⟨r, pi, li, hT, hG, fun x hx => ⟨hp x hx, by have := hp x hx; omega⟩,
    fun y hy => ⟨by have := (hl y hy).1; omega, (hl y hy).2⟩, ?_,
    opGetString_length _ _ _ _ _ hG, ?_⟩
  · intro p hret
    by_cases hfit : ((firstToken s).length : Int) ≤ outSize - 1
    · have hg := opGetString_fits s out outSize fuel hnz hlen (by omega) hfit
      rw [hG] at hg
      cases hg
      cases hret
      exact ⟨afterTokenPos_le s, List.drop_suffix _ _⟩
    · have hg := opGetString_overflow s out outSize fuel hnz hlen (by omega) hsize (by omega)
      rw [hG] at hg
      cases hg
      cases hret
  · intro hret
    by_cases hfit : ((firstToken s).length : Int) ≤ outSize - 1
    · have hg := opGetString_fits s out outSize fuel hnz hlen (by omega) hfit
      have hterm := putBytes_terminated (firstToken s) out (by omega)
      have htokz : ∀ c ∈ firstToken s, c ≠ 0 := fun c hc => hnz c (firstToken_subset s c hc)
      rw [hG] at hg
      cases hg
      simp only [hterm, cstrOf_terminated _ _ htokz]
      push_cast
      omega
    · have hg := opGetString_overflow s out outSize fuel hnz hlen (by omega) hsize (by omega)
      rw [hG] at hg
      cases hg
      exact absurd rfl hret

set_option maxRecDepth 4000 in
theorem opGetString_counters_stay_in_range_witness :
    ∃ r posIncr lenIncr,
      opGetStringT 256 (stripNewline longLine) (List.replicate 80 7) 80
        = some (r, posIncr, lenIncr) ∧
      opGetString 256 (stripNewline longLine) (List.replicate 80 7) 80 = some r ∧
      (∀ x ∈ posIncr, x ≤ (stripNewline longLine).length ∧ x < 256) ∧
      (∀ y ∈ lenIncr, y < 256 ∧ (y : Int) ≤ 80 - 1) ∧
      (∀ p, r.ret = some p →
        p ≤ (stripNewline longLine).length ∧
        (stripNewline longLine).drop p <:+ stripNewline longLine) ∧
      r.outStr.length = (List.replicate 80 7).length ∧
      (r.ret ≠ none → (((cstrOf r.outStr).length + 1 : Nat) : Int) ≤ 80) :=
  opGetString_counters_stay_in_range (stripNewline longLine) (List.replicate 80 7) 80 256
    (by decide) (by decide) (by decide) (by decide) (by decide)


end Operator
